import Mathlib

/-!
Verification of the hierarchical content-tree engine of the motion-pro
repository.

The definitions below are a shallow embedding of the page/block CRUD route
handlers and their recursive helpers:

* `getAllChildPageIdsRecursive`, `sortPagesByDepth`, `getPageDepth` and
  `checkCircularReference` from `src/app/api/auth/me/route.ts`;
* the `POST`/`PUT`/`DELETE /api/pages` handlers from the same file
  (`createPage`, `updatePage`, `deletePages` below);
* the `POST`/`DELETE /api/blocks` handlers from `src/app/api/blocks/route.ts`
  (`createBlock`, `deleteBlock` below).

The relational store (MySQL tables `workspaces`, `sections`, `subsections`,
`pages`, `content_blocks`, `comments`, `page_files`) is modelled as lists of
rows in a `Store`; a SQL `SELECT ... WHERE` is a `List.filter`/`List.find?`,
an `UPDATE` is a `List.map`, a `DELETE` is a `List.filter`.  A transaction
that rolls back on a validation failure is modelled by the handler returning
the unchanged store together with `Except.error`: every error path of the
source performs `db.rollback()` before responding, so no partial mutation
survives.  Row columns that never influence the tree structure (icons,
timestamps, JSON payloads, block `type`/`content`) are elided.  JavaScript
string truthiness (`undefined`/`null`/`''` are falsy) is modelled by
`optTruthy`.  The random `generateUUID()` is an explicit `newId` argument.
-/

namespace MotionPro

/-- A row of the `pages` table (structure-relevant columns).  `none` models
SQL `NULL`. -/
structure Page where
  id : String
  workspaceId : String
  sectionId : Option String
  subsectionId : Option String
  parentId : Option String
  title : String
  pageOrder : Int
deriving DecidableEq

/-- A row of the `content_blocks` table (`block_order` is the sibling order
within the owning page; payload columns elided). -/
structure Block where
  id : String
  pageId : String
  blockOrder : Int
deriving DecidableEq

/-- A row of the `comments` table (only the owning page matters here). -/
structure CommentRow where
  id : String
  pageId : String
deriving DecidableEq

/-- A row of the `page_files` table. -/
structure FileRow where
  id : String
  pageId : String
deriving DecidableEq

/-- The relational store: `workspaces` and `sections`/`subsections` keep just
the columns the handlers consult (`sections` rows are `(id, workspace_id)`,
`subsections` rows are `(id, section_id)`). -/
structure Store where
  workspaces : List String
  sections : List (String × String)
  subsections : List (String × String)
  pages : List Page
  blocks : List Block
  comments : List CommentRow
  files : List FileRow
deriving DecidableEq

deriving instance DecidableEq for Except

/-- JavaScript `String.prototype.trim` (leading and trailing whitespace
removed), written on the underlying character list so that it evaluates
inside the kernel. -/
def strTrim (s : String) : String :=
  ⟨((s.data.dropWhile Char.isWhitespace).reverse.dropWhile
      Char.isWhitespace).reverse⟩

/-- JavaScript truthiness of a nullable string: `undefined`, `null` and the
empty string are falsy. -/
def optTruthy : Option String → Bool
  | none => false
  | some s => !(s == "")

/-- `SELECT * FROM pages WHERE id = ?` (first row). -/
def findPage (ps : List Page) (pid : String) : Option Page :=
  ps.find? (fun p => p.id == pid)

/-- `SELECT * FROM content_blocks WHERE id = ?` (first row). -/
def findBlock (bs : List Block) (bid : String) : Option Block :=
  bs.find? (fun b => b.id == bid)

/-- `SELECT id FROM pages WHERE parent_id = ?`: the ids of the direct
children of `pid`. -/
def childIds (ps : List Page) (pid : String) : List String :=
  (ps.filter (fun p => p.parentId == some pid)).map (fun p => p.id)

/-- One round of the inner `for` loop of `getAllChildPageIdsRecursive`:
a child id is appended to both `allIds` and `toProcess` unless it was
already collected. -/
def addChild (st : List String × List String) (c : String) :
    List String × List String :=
  if st.1.contains c then st else (st.1 ++ [c], st.2 ++ [c])

/-- The full inner `for` loop over one `childRows` result set. -/
def addChildren (st : List String × List String) (children : List String) :
    List String × List String :=
  children.foldl addChild st

/-- The `while (toProcess.length > 0)` worklist loop of
`getAllChildPageIdsRecursive`, with explicit fuel standing for the finite
number of loop iterations (the fuel chosen in
`getAllChildPageIdsRecursive` is proved sufficient: see
`getAllChildPageIds_spec`). -/
def bfsAux (ps : List Page) :
    Nat → List String → List String → List String → Option (List String)
  | 0, _, _, _ => none
  | _ + 1, allIds, [], _ => some allIds
  | fuel + 1, allIds, current :: rest, processed =>
    if processed.contains current then
      bfsAux ps fuel allIds rest processed
    else
      let st := addChildren (allIds, rest) (childIds ps current)
      bfsAux ps fuel st.1 st.2 (current :: processed)

/-- `getAllChildPageIdsRecursive(db, parentId)`: breadth-first enumeration of
`parentId` and all of its descendants, with a `processed` visited-set and a
no-duplicates `allIds` accumulator, exactly as in the source.  Returns
`none` only on fuel exhaustion, which never happens
(`getAllChildPageIds_spec`). -/
def getAllChildPageIdsRecursive (ps : List Page) (parentId : String) :
    Option (List String) :=
  bfsAux ps (ps.length + 2) [parentId] [parentId] []

/-- The `while (currentId)` ancestor walk of `getPageDepth`: stop when the
row is missing or its parent is falsy (`parentRows.length === 0 ||
!parentRows[0].parent_id`), otherwise step to the parent and increment
`depth`; the `if (depth > 50) break` safety check stops the walk (returning
the capped value) instead of reporting an error.  Because of that cap the
loop runs at most 51 times, so it is embedded with a structural `fuel`
argument kept equal to `51 - depth`; the `fuel = 0` base case is never
reached from `getPageDepth` (`fuel + depth = 51` is invariant and the loop
continues only while `depth + 1 ≤ 50`). -/
def getPageDepthAux (ps : List Page) : Nat → String → Nat → Nat
  | 0, _, depth => depth
  | fuel + 1, currentId, depth =>
    match (findPage ps currentId).bind (fun p => p.parentId) with
    | none => depth
    | some parId =>
      if parId == "" then depth
      else if depth + 1 > 50 then depth + 1
      else getPageDepthAux ps fuel parId (depth + 1)

/-- `getPageDepth(db, pageId)`. -/
def getPageDepth (ps : List Page) (pageId : String) : Nat :=
  getPageDepthAux ps 51 pageId 0

/-- Stable insertion into a depth-descending list: the new pair goes in
front of the first strictly shallower entry, after every entry of equal or
greater depth. -/
def insertByDepthDesc (x : String × Nat) : List (String × Nat) → List (String × Nat)
  | [] => [x]
  | y :: ys => if y.2 < x.2 then x :: y :: ys else y :: insertByDepthDesc x ys

/-- Stable sort by depth descending (insertion sort). -/
def sortPairsByDepthDesc : List (String × Nat) → List (String × Nat)
  | [] => []
  | x :: xs => insertByDepthDesc x (sortPairsByDepthDesc xs)

/-- `sortPagesByDepth(db, pageIds)`: pair every id with its depth, then sort
by depth descending.  The source sorts with the comparator
`(a, b) => b.depth - a.depth` using JavaScript `Array.prototype.sort`,
which is stable; a stable sort by a consistent comparator has a unique
result, so the stable insertion sort above computes exactly the same
list. -/
def sortPagesByDepth (ps : List Page) (pageIds : List String) : List String :=
  (sortPairsByDepthDesc (pageIds.map (fun i => (i, getPageDepth ps i)))).map
    (fun x => x.1)

/-- `checkCircularReference(db, pageId, newParentId)`: the descendant
enumeration runs inside a `try`; on success the check is membership of the
proposed parent among the descendants, and the `catch` branch answers `true`
(move blocked).  The outcome of the underlying query is the explicit
`descendantsResult` argument. -/
def checkCircularReference (descendantsResult : Except String (List String))
    (newParentId : String) : Bool :=
  match descendantsResult with
  | Except.error _ => true
  | Except.ok descendants => descendants.contains newParentId

/-- The descendant query as run by `PUT /api/pages` (a pure store read; the
fuel-exhaustion branch is unreachable by `getAllChildPageIds_spec`). -/
def runDescendantQuery (ps : List Page) (pid : String) :
    Except String (List String) :=
  match getAllChildPageIdsRecursive ps pid with
  | some l => Except.ok l
  | none => Except.error "descendant enumeration failed"

/-- The request body of `PUT /api/pages`.  An outer `none` is an absent
(`undefined`) field, `some none` is an explicit JSON `null`.  Payload-only
fields of the route (`icon`, `type`, `status`, `assignees`, `deadline`,
`properties`) are elided: they never touch the tree structure. -/
structure UpdateReq where
  id : String
  title : Option String := none
  parentId : Option (Option String) := none
  order : Option Int := none
  sectionId : Option (Option String) := none
  subsectionId : Option (Option String) := none
deriving DecidableEq

/-- Lines 816-838 of the route: the self-parent and circular-reference
validation of `PUT /api/pages`.  Both checks run only when a parent is
supplied and differs from the current one; the circular check additionally
requires a truthy new parent. -/
def moveValidationError (cur : Page) (req : UpdateReq)
    (descRes : Except String (List String)) : Option String :=
  match req.parentId with
  | none => none
  | some pv =>
    if pv == cur.parentId then none
    else if pv == some req.id then some "Page cannot be its own parent"
    else
      match pv with
      | none => none
      | some newPid =>
        if newPid == "" then none
        else if checkCircularReference descRes newPid then
          some "This would create a circular reference"
        else none

/-- Lines 840-857 of the route: the final section/subsection pair of a `PUT`.
Explicitly supplied values win; when the parent changes to a truthy value
and the field was not supplied, the value is inherited from the new parent
(silently skipped when the new parent row is missing). -/
def inheritContainment (ps : List Page) (cur : Page) (req : UpdateReq) :
    Option String × Option String :=
  let base1 := match req.sectionId with | some v => v | none => cur.sectionId
  let base2 := match req.subsectionId with | some v => v | none => cur.subsectionId
  match req.parentId with
  | some (some newPid) =>
    if some newPid ≠ cur.parentId ∧ newPid ≠ "" then
      match findPage ps newPid with
      | some par =>
        ((if req.sectionId = none then par.sectionId else base1),
         (if req.subsectionId = none then par.subsectionId else base2))
      | none => (base1, base2)
    else (base1, base2)
  | _ => (base1, base2)

/-- Whether the dynamic `updates` list of `PUT /api/pages` is non-empty
(restricted to the modelled fields). -/
def hasUpdatableFields (cur : Page) (req : UpdateReq)
    (fsec fsub : Option String) : Bool :=
  (match req.title with | some t => !(strTrim t == "") | none => false)
  || !(req.parentId == none)
  || !(fsec == cur.sectionId)
  || !(fsub == cur.subsectionId)
  || !(req.order == none)

/-- The row produced by the dynamic `UPDATE pages SET ...` statement.  The
source only pushes `section_id`/`subsection_id` assignments when they differ
from the current values, which is extensionally the unconditional
assignment written here. -/
def applyPageUpdate (cur : Page) (req : UpdateReq)
    (fsec fsub : Option String) : Page :=
  { cur with
    title := match req.title with
      | some t => if strTrim t == "" then cur.title else strTrim t
      | none => cur.title
    parentId := match req.parentId with | some pv => pv | none => cur.parentId
    sectionId := fsec
    subsectionId := fsub
    pageOrder := match req.order with | some o => o | none => cur.pageOrder }

/-- `PUT /api/pages` with the outcome of the descendant query of the
circular-reference check as an explicit argument (`updatePage` plugs in the
real query).  Error results model a rolled-back transaction: the store is
returned unchanged. -/
def updatePageCore (s : Store) (req : UpdateReq)
    (descRes : Except String (List String)) : Store × Except String Page :=
  if req.id == "" then (s, Except.error "Page ID is required")
  else
    match findPage s.pages req.id with
    | none => (s, Except.error "Page not found")
    | some cur =>
      match moveValidationError cur req descRes with
      | some msg => (s, Except.error msg)
      | none =>
        let fc := inheritContainment s.pages cur req
        if optTruthy fc.1 ∧ fc.1 ≠ cur.sectionId ∧
            ¬ (s.sections.any (fun sec => some sec.1 == fc.1)) then
          (s, Except.error "Section not found")
        else if optTruthy fc.2 ∧ fc.2 ≠ cur.subsectionId ∧
            ¬ (s.subsections.any (fun r => some r.1 == fc.2 && some r.2 == fc.1)) then
          (s, Except.error "Subsection not found or does not belong to section")
        else if ¬ hasUpdatableFields cur req fc.1 fc.2 then
          (s, Except.error "No fields to update")
        else
          let newPage := applyPageUpdate cur req fc.1 fc.2
          ({ s with pages := s.pages.map (fun p => if p.id == req.id then newPage else p) },
            Except.ok newPage)

/-- `PUT /api/pages`. -/
def updatePage (s : Store) (req : UpdateReq) : Store × Except String Page :=
  updatePageCore s req (runDescendantQuery s.pages req.id)

/-- The request body of `POST /api/pages` (payload-only fields elided). -/
structure CreateReq where
  workspaceId : String
  sectionId : Option String := none
  subsectionId : Option String := none
  parentId : Option String := none
  title : String
  order : Option Int := none
deriving DecidableEq

/-- Lines 657-679 of the route: default order of a created page when the
request carries no `order`.  The sibling group is chosen by parent, else
subsection root, else section root; the SQL `COALESCE(MAX(page_order), -1)`
is the fold below, and the JavaScript `(maxOrder || -1) + 1` turns a max of
`0` back into `-1` before incrementing. -/
def defaultPageOrder (s : Store) (req : CreateReq)
    (finalSectionId finalSubsectionId : Option String) : Int :=
  let siblings :=
    if optTruthy req.parentId then
      s.pages.filter (fun p => p.parentId == req.parentId)
    else if optTruthy finalSubsectionId then
      s.pages.filter (fun p =>
        p.subsectionId == finalSubsectionId && p.parentId == none)
    else
      s.pages.filter (fun p =>
        p.sectionId == finalSectionId && p.subsectionId == none
          && p.parentId == none)
  let maxOrder : Int :=
    match siblings.map (fun p => p.pageOrder) with
    | [] => -1
    | o :: os => os.foldl max o
  (if maxOrder == 0 then -1 else maxOrder) + 1

/-- `POST /api/pages`.  `newId` is the generated UUID. -/
def createPage (s : Store) (newId : String) (req : CreateReq) :
    Store × Except String Page :=
  if req.workspaceId == "" || strTrim req.title == "" then
    (s, Except.error "Workspace ID and title are required")
  else if !(optTruthy req.parentId) && !(optTruthy req.sectionId) then
    (s, Except.error "Section ID is required for root pages")
  else
    let parentLookup : Except String (Option Page) :=
      if optTruthy req.parentId then
        match findPage s.pages (req.parentId.getD "") with
        | some par => Except.ok (some par)
        | none => Except.error "Parent page not found"
      else Except.ok none
    match parentLookup with
    | Except.error e => (s, Except.error e)
    | Except.ok parentOpt =>
      let finalSectionId := match parentOpt with
        | some par => if optTruthy req.sectionId then req.sectionId else par.sectionId
        | none => req.sectionId
      let finalSubsectionId := match parentOpt with
        | some par =>
          if optTruthy req.subsectionId then req.subsectionId else par.subsectionId
        | none => req.subsectionId
      if !(s.workspaces.contains req.workspaceId) then
        (s, Except.error "Workspace not found")
      else if !(optTruthy finalSectionId) then
        (s, Except.error "Section ID is required for all pages")
      else if !(s.sections.any (fun sec =>
          sec.1 == finalSectionId.getD "" && sec.2 == req.workspaceId)) then
        (s, Except.error "Section not found or does not belong to workspace")
      else if optTruthy finalSubsectionId &&
          !(s.subsections.any (fun r =>
            r.1 == finalSubsectionId.getD "" && r.2 == finalSectionId.getD "")) then
        (s, Except.error "Subsection not found or does not belong to section")
      else
        let pageOrder : Int := match req.order with
          | some o => o
          | none => defaultPageOrder s req finalSectionId finalSubsectionId
        let newPage : Page :=
          { id := newId
            workspaceId := req.workspaceId
            sectionId := finalSectionId
            subsectionId :=
              if optTruthy finalSubsectionId then finalSubsectionId else none
            parentId := if optTruthy req.parentId then req.parentId else none
            title := strTrim req.title
            pageOrder := pageOrder }
        ({ s with pages := s.pages ++ [newPage] }, Except.ok newPage)

/-- The body of `DELETE /api/pages` once the `id` query parameter is
present.  Cascading is the default and is turned off only by the literal
string `'false'`.  Dependent rows (blocks, comments, files) of every
collected page id are deleted first, then the page rows in depth-descending
order; the response carries `deletedIds`. -/
def deletePagesGo (s : Store) (pid : String) (dc : Option String) :
    Store × Except String (List String) :=
  if pid == "" then (s, Except.error "Page ID is required")
  else
    match findPage s.pages pid with
    | none => (s, Except.error "Page not found")
    | some _ =>
      match (if !(dc == some "false") then getAllChildPageIdsRecursive s.pages pid
          else some [pid]) with
      | none => (s, Except.error "Internal server error")
      | some allPageIds =>
        ({ s with
            pages := (sortPagesByDepth s.pages allPageIds).foldl
              (fun acc delId => acc.filter (fun q => !(q.id == delId))) s.pages
            blocks := s.blocks.filter (fun b => !(allPageIds.contains b.pageId))
            comments := s.comments.filter (fun c => !(allPageIds.contains c.pageId))
            files := s.files.filter (fun f => !(allPageIds.contains f.pageId)) },
          Except.ok allPageIds)

/-- `DELETE /api/pages`.  `idParam` and `deleteChildrenParam` are the query
string parameters (`none` = absent). -/
def deletePages (s : Store) (idParam : Option String)
    (deleteChildrenParam : Option String) : Store × Except String (List String) :=
  match idParam with
  | none => (s, Except.error "Page ID is required")
  | some pid => deletePagesGo s pid deleteChildrenParam

/-- The request body of `POST /api/blocks` (`type`, `content`, `metadata`
elided: they never touch ordering). -/
structure BlockCreateReq where
  pageId : String
  order : Option Int := none
  insertAfter : Option String := none
deriving DecidableEq

/-- `POST /api/blocks`.  With a truthy `insertAfter` whose row exists, the
new block gets `order(anchor) + 1` and every block of the page at or above
that order is shifted up; with no `order` and no anchor the block is
appended after the page's maximum order (0 on an empty page). -/
def createBlock (s : Store) (newId : String) (req : BlockCreateReq) :
    Store × Except String Block :=
  if req.pageId == "" then (s, Except.error "Page ID and type are required")
  else
    match findPage s.pages req.pageId with
    | none => (s, Except.error "Page not found")
    | some pg =>
      if !(s.workspaces.contains pg.workspaceId) then
        (s, Except.error "Page not found")
      else if optTruthy req.insertAfter then
        match findBlock s.blocks (req.insertAfter.getD "") with
        | some ab =>
          let blockOrder := ab.blockOrder + 1
          let shifted := s.blocks.map (fun b =>
            if b.pageId == req.pageId && blockOrder ≤ b.blockOrder then
              { b with blockOrder := b.blockOrder + 1 } else b)
          let nb : Block := { id := newId, pageId := req.pageId, blockOrder := blockOrder }
          ({ s with blocks := shifted ++ [nb] }, Except.ok nb)
        | none =>
          let nb : Block := { id := newId, pageId := req.pageId, blockOrder := req.order.getD 0 }
          ({ s with blocks := s.blocks ++ [nb] }, Except.ok nb)
      else if req.order == none then
        let pageOrders :=
          (s.blocks.filter (fun b => b.pageId == req.pageId)).map (fun b => b.blockOrder)
        let blockOrder : Int :=
          match pageOrders with
          | [] => 0
          | o :: os => os.foldl max o + 1
        let nb : Block := { id := newId, pageId := req.pageId, blockOrder := blockOrder }
        ({ s with blocks := s.blocks ++ [nb] }, Except.ok nb)
      else
        let nb : Block := { id := newId, pageId := req.pageId, blockOrder := req.order.getD 0 }
        ({ s with blocks := s.blocks ++ [nb] }, Except.ok nb)

/-- The block table after `DELETE /api/blocks` removes block `b` (looked up
as `blockId`): the row is deleted (`DELETE ... WHERE id = ?`) and every
block of the same page with a larger order is decremented
(`UPDATE ... SET block_order = block_order - 1 WHERE page_id = ? AND
block_order > ?`), closing the gap. -/
def shiftRowAfter (b : Block) (r : Block) : Block :=
  if r.pageId == b.pageId && b.blockOrder < r.blockOrder then
    { r with blockOrder := r.blockOrder - 1 } else r

def blocksAfterDelete (s : Store) (blockId : String) (b : Block) : List Block :=
  (s.blocks.filter (fun r => !(r.id == blockId))).map (shiftRowAfter b)

/-- `DELETE /api/blocks`.  The initial `SELECT` joins the owning page and
workspace, so a dangling block answers 404. -/
def deleteBlock (s : Store) (blockId : String) : Store × Except String Unit :=
  if blockId == "" then (s, Except.error "Block ID is required")
  else
    match findBlock s.blocks blockId with
    | none => (s, Except.error "Block not found")
    | some b =>
      match findPage s.pages b.pageId with
      | none => (s, Except.error "Block not found")
      | some pg =>
        if !(s.workspaces.contains pg.workspaceId) then
          (s, Except.error "Block not found")
        else
          ({ s with blocks := blocksAfterDelete s blockId b }, Except.ok ())

/-- Reachability along child edges: `Reach ps root x` holds iff `x` is
`root` itself or a descendant of `root` in the parent-pointer forest
`ps`.  This is the specification notion the breadth-first enumeration is
proved against. -/
inductive Reach (ps : List Page) (root : String) : String → Prop
  | refl : Reach ps root root
  | step {y c : String} : Reach ps root y → c ∈ childIds ps y → Reach ps root c

/-- Acyclicity of the parent pointers: no page's parent is the page itself
or one of its descendants. -/
def NoCycle (ps : List Page) : Prop :=
  ∀ p ∈ ps, ∀ par, p.parentId = some par → ¬ Reach ps p.id par

/-- The spec's sibling-contiguity predicate: a list of order values is a
permutation of `0..n-1`. -/
def ordersContiguous (l : List Int) : Prop :=
  l.Perm ((List.range l.length).map (fun i : Nat => (i : Int)))

/-- Proof-side measure for the worklist loop: how many page ids (with
multiplicity) are not yet collected in `allIds`. -/
def remaining (ps : List Page) (allIds : List String) : Nat :=
  (ps.map (fun p => p.id)).countP (fun i => !(allIds.contains i))

/-- Loop invariant of the worklist enumeration: `allIds` is duplicate-free,
contains the root, every collected id is reachable, every processed id has
all of its children collected, and every collected id is either still on the
worklist or already processed. -/
structure BfsInv (ps : List Page) (root : String)
    (allIds toProcess processed : List String) : Prop where
  nodup : allIds.Nodup
  rootMem : root ∈ allIds
  workSub : ∀ x ∈ toProcess, x ∈ allIds
  sound : ∀ x ∈ allIds, Reach ps root x
  procClosed : ∀ x ∈ processed, ∀ c ∈ childIds ps x, c ∈ allIds
  covered : ∀ x ∈ allIds, x ∈ toProcess ∨ x ∈ processed

/-! ### Concrete stores used by witnesses and counterexamples -/

/-- Shorthand for a page row of workspace `w`. -/
def pageRow (i : String) (par : Option String) (sec sub : Option String)
    (ord : Int) : Page :=
  { id := i, workspaceId := "w", sectionId := sec, subsectionId := sub,
    parentId := par, title := i, pageOrder := ord }

/-- A store with root pages `R` (section `s2`) and `Q` (section `s1`), and
`P` a child page of `Q`. -/
def sMove : Store :=
  { workspaces := ["w"], sections := [("s1", "w"), ("s2", "w")], subsections := [],
    pages := [pageRow "R" none (some "s2") none 0,
              pageRow "Q" none (some "s1") none 0,
              pageRow "P" (some "Q") (some "s1") none 0],
    blocks := [], comments := [], files := [] }

/-- A store with a single root page `A`. -/
def sOne : Store :=
  { workspaces := ["w"], sections := [("s1", "w")], subsections := [],
    pages := [pageRow "A" none (some "s1") none 0],
    blocks := [], comments := [], files := [] }

/-- A corrupted store whose only page is its own parent. -/
def sCyc : Store :=
  { workspaces := ["w"], sections := [("s1", "w")], subsections := [],
    pages := [pageRow "a" (some "a") (some "s1") none 0],
    blocks := [], comments := [], files := [] }

/-- A three-level chain `N → C1 → C2` plus a sibling root `M`, with
dependent blocks/comments/files spread over the chain. -/
def sDel : Store :=
  { workspaces := ["w"], sections := [("s1", "w")], subsections := [],
    pages := [pageRow "N" none (some "s1") none 0,
              pageRow "M" none (some "s1") none 1,
              pageRow "C1" (some "N") (some "s1") none 0,
              pageRow "C2" (some "C1") (some "s1") none 0],
    blocks := [⟨"b1", "C1", 0⟩, ⟨"b2", "M", 0⟩],
    comments := [⟨"cm1", "C2"⟩], files := [⟨"f1", "N"⟩] }

/-- Two sibling root pages of section `s1` with orders `0` and `1`. -/
def sGap : Store :=
  { workspaces := ["w"], sections := [("s1", "w")], subsections := [],
    pages := [pageRow "P0" none (some "s1") none 0,
              pageRow "P1" none (some "s1") none 1],
    blocks := [], comments := [], files := [] }

/-- The store left after cascade-deleting `"N"` from `sDel`. -/
def sDelAfter : Store :=
  { workspaces := ["w"], sections := [("s1", "w")], subsections := [],
    pages := [pageRow "M" none (some "s1") none 1],
    blocks := [⟨"b2", "M", 0⟩], comments := [], files := [] }

/-- A page `pp` owning three blocks with orders `0`, `1`, `2`. -/
def sBlocks : Store :=
  { workspaces := ["w"], sections := [("s1", "w")], subsections := [],
    pages := [pageRow "pp" none (some "s1") none 0],
    blocks := [⟨"b0", "pp", 0⟩, ⟨"b1", "pp", 1⟩, ⟨"b2", "pp", 2⟩],
    comments := [], files := [] }

/-! ### The worklist enumeration: termination and correctness -/

theorem contains_eq_decide_mem (l : List String) (a : String) :
    l.contains a = decide (a ∈ l) := by
  by_cases h : a ∈ l <;> simp [List.elem_iff, h]

theorem childIds_sub_ids (ps : List Page) (pid : String) :
    ∀ c ∈ childIds ps pid, c ∈ ps.map (fun p => p.id) := by
  intro c hc
  unfold childIds at hc
  rcases List.mem_map.mp hc with ⟨p, hp, rfl⟩
  exact List.mem_map.mpr ⟨p, (List.mem_filter.mp hp).1, rfl⟩

theorem addChildren_cons (st : List String × List String) (c : String)
    (cs : List String) :
    addChildren st (c :: cs) = addChildren (addChild st c) cs := rfl

theorem addChild_fst_mono (st : List String × List String) (c : String) :
    ∀ x ∈ st.1, x ∈ (addChild st c).1 := by
  intro x hx
  unfold addChild
  split
  · exact hx
  · exact List.mem_append_left _ hx

theorem addChild_snd_mono (st : List String × List String) (c : String) :
    ∀ x ∈ st.2, x ∈ (addChild st c).2 := by
  intro x hx
  unfold addChild
  split
  · exact hx
  · exact List.mem_append_left _ hx

theorem addChildren_fst_mono (cs : List String) :
    ∀ st : List String × List String, ∀ x ∈ st.1, x ∈ (addChildren st cs).1 := by
  induction cs with
  | nil => intro st x hx; exact hx
  | cons c cs ih =>
    intro st x hx
    rw [addChildren_cons]
    exact ih _ _ (addChild_fst_mono st c x hx)

theorem addChildren_snd_mono (cs : List String) :
    ∀ st : List String × List String, ∀ x ∈ st.2, x ∈ (addChildren st cs).2 := by
  induction cs with
  | nil => intro st x hx; exact hx
  | cons c cs ih =>
    intro st x hx
    rw [addChildren_cons]
    exact ih _ _ (addChild_snd_mono st c x hx)

theorem addChildren_mem_fst (cs : List String) :
    ∀ st : List String × List String, ∀ c ∈ cs, c ∈ (addChildren st cs).1 := by
  induction cs with
  | nil => intro st c hc; cases hc
  | cons c cs ih =>
    intro st d hd
    rw [addChildren_cons]
    rcases List.mem_cons.mp hd with rfl | hd
    · refine addChildren_fst_mono cs _ d ?_
      unfold addChild
      split
      · next h => exact (contains_eq_decide_mem _ _ ▸ h : _ = true) |> of_decide_eq_true
      · exact List.mem_append_right _ (List.mem_singleton.mpr rfl)
    · exact ih _ d hd

theorem addChild_fst_sub (st : List String × List String) (c : String) :
    ∀ x ∈ (addChild st c).1, x ∈ st.1 ∨ x = c := by
  intro x hx
  unfold addChild at hx
  split at hx
  · exact Or.inl hx
  · rcases List.mem_append.mp hx with h | h
    · exact Or.inl h
    · exact Or.inr (List.mem_singleton.mp h)

theorem addChildren_fst_sub (cs : List String) :
    ∀ st : List String × List String, ∀ x ∈ (addChildren st cs).1,
      x ∈ st.1 ∨ x ∈ cs := by
  induction cs with
  | nil => intro st x hx; exact Or.inl hx
  | cons c cs ih =>
    intro st x hx
    rw [addChildren_cons] at hx
    rcases ih _ x hx with h | h
    · rcases addChild_fst_sub st c x h with h2 | rfl
      · exact Or.inl h2
      · exact Or.inr (List.mem_cons_self _ _)
    · exact Or.inr (List.mem_cons_of_mem _ h)

theorem addChildren_fst_split (cs : List String) :
    ∀ st : List String × List String, ∀ x ∈ (addChildren st cs).1,
      x ∈ st.1 ∨ x ∈ (addChildren st cs).2 := by
  induction cs with
  | nil => intro st x hx; exact Or.inl hx
  | cons c cs ih =>
    intro st x hx
    rw [addChildren_cons] at hx
    rcases ih _ x hx with h | h
    · unfold addChild at h
      split at h
      · exact Or.inl h
      · rcases List.mem_append.mp h with h2 | h2
        · exact Or.inl h2
        · refine Or.inr ?_
          rw [addChildren_cons]
          refine addChildren_snd_mono cs _ x ?_
          unfold addChild
          split
          · next hcon =>
            exfalso
            rw [List.mem_singleton.mp h2] at *
            next hncon => exact absurd hcon hncon
          · exact List.mem_append_right _ h2
    · exact Or.inr (by rw [addChildren_cons]; exact h)

theorem addChild_nodup (st : List String × List String) (c : String)
    (h : st.1.Nodup) : (addChild st c).1.Nodup := by
  unfold addChild
  split
  · exact h
  · next hnc =>
    have : c ∉ st.1 := by
      intro hmem
      exact hnc (by rw [contains_eq_decide_mem]; exact decide_eq_true hmem)
    simp [List.nodup_append, h, this]

theorem addChildren_nodup (cs : List String) :
    ∀ st : List String × List String, st.1.Nodup →
      (addChildren st cs).1.Nodup := by
  induction cs with
  | nil => intro st h; exact h
  | cons c cs ih =>
    intro st h
    rw [addChildren_cons]
    exact ih _ (addChild_nodup st c h)

theorem addChildren_snd_sub_fst (cs : List String) :
    ∀ st : List String × List String, (∀ x ∈ st.2, x ∈ st.1) →
      ∀ x ∈ (addChildren st cs).2, x ∈ (addChildren st cs).1 := by
  induction cs with
  | nil => intro st h x hx; exact h x hx
  | cons c cs ih =>
    intro st h x hx
    rw [addChildren_cons] at hx ⊢
    refine ih _ ?_ x hx
    intro y hy
    by_cases hcon : st.1.contains c = true
    · simp only [addChild, if_pos hcon] at hy ⊢
      exact h y hy
    · simp only [addChild, if_neg hcon] at hy ⊢
      rcases List.mem_append.mp hy with h2 | h2
      · exact List.mem_append_left _ (h y h2)
      · exact List.mem_append_right _ h2

theorem countP_append_singleton_lt (ids : List String) :
    ∀ (l : List String) (c : String), c ∈ ids → l.contains c ≠ true →
      ids.countP (fun i => !((l ++ [c]).contains i)) + 1 ≤
        ids.countP (fun i => !(l.contains i)) := by
  induction ids with
  | nil => intro l c hc; cases hc
  | cons a as ih =>
    intro l c hc hnc
    rw [List.countP_cons, List.countP_cons]
    have hmono : as.countP (fun i => !((l ++ [c]).contains i)) ≤
        as.countP (fun i => !(l.contains i)) := by
      refine List.countP_mono_left ?_
      intro x _ hx
      simp only [contains_eq_decide_mem, List.mem_append, List.mem_singleton] at hx ⊢
      simp only [Bool.not_eq_true', decide_eq_false_iff_not] at hx ⊢
      intro hmem
      exact hx (Or.inl hmem)
    by_cases hac : a = c
    · subst hac
      have h1 : ((l ++ [a]).contains a) = true := by
        rw [contains_eq_decide_mem]
        exact decide_eq_true (List.mem_append_right _ (List.mem_singleton.mpr rfl))
      have h2 : (l.contains a) = false := by
        cases h : l.contains a
        · rfl
        · exact absurd h hnc
      have e1 : (!((l ++ [a]).contains a)) = false := by rw [h1]; rfl
      have e2 : (!(l.contains a)) = true := by rw [h2]; rfl
      rw [e1, e2]
      simp only [Bool.false_eq_true, if_false, if_true]
      omega
    · have hceq : ((l ++ [c]).contains a) = (l.contains a) := by
        simp only [contains_eq_decide_mem, List.mem_append, List.mem_singleton]
        by_cases hmem : a ∈ l
        · simp [hmem]
        · simp [hmem, hac]
      rcases List.mem_cons.mp hc with rfl | hcs
      · exact absurd rfl hac
      · have := ih l c hcs hnc
        rw [hceq]
        omega

theorem addChild_measure (ps : List Page) (st : List String × List String)
    (c : String) (hc : c ∈ ps.map (fun p => p.id)) :
    (addChild st c).2.length + remaining ps (addChild st c).1 ≤
      st.2.length + remaining ps st.1 := by
  unfold addChild
  split
  · exact le_refl _
  · next hnc =>
    have := countP_append_singleton_lt (ps.map (fun p => p.id)) st.1 c hc hnc
    unfold remaining
    simp only [List.length_append, List.length_singleton]
    omega

theorem addChildren_measure (ps : List Page) (cs : List String) :
    ∀ st : List String × List String, (∀ c ∈ cs, c ∈ ps.map (fun p => p.id)) →
      (addChildren st cs).2.length + remaining ps (addChildren st cs).1 ≤
        st.2.length + remaining ps st.1 := by
  induction cs with
  | nil => intro st _; exact le_refl _
  | cons c cs ih =>
    intro st h
    rw [addChildren_cons]
    calc (addChildren (addChild st c) cs).2.length +
          remaining ps (addChildren (addChild st c) cs).1
        ≤ (addChild st c).2.length + remaining ps (addChild st c).1 :=
          ih _ (fun d hd => h d (List.mem_cons_of_mem _ hd))
      _ ≤ st.2.length + remaining ps st.1 :=
          addChild_measure ps st c (h c (List.mem_cons_self _ _))

theorem bfsAux_spec (ps : List Page) (root : String) :
    ∀ (fuel : Nat) (allIds toProcess processed : List String),
      BfsInv ps root allIds toProcess processed →
      toProcess.length + remaining ps allIds < fuel →
      ∃ l, bfsAux ps fuel allIds toProcess processed = some l ∧
        l.Nodup ∧ ∀ x, x ∈ l ↔ Reach ps root x := by
  intro fuel
  induction fuel with
  | zero => intro allIds toProcess processed _ hlt; omega
  | succ fuel ih =>
    intro allIds toProcess processed inv hlt
    match toProcess with
    | [] =>
      refine ⟨allIds, rfl, inv.nodup, ?_⟩
      intro x
      constructor
      · exact inv.sound x
      · intro hr
        induction hr with
        | refl => exact inv.rootMem
        | step h1 h2 ih1 =>
          rcases inv.covered _ ih1 with h | h
          · exact absurd h (List.not_mem_nil _)
          · exact inv.procClosed _ h _ h2
    | current :: rest =>
      have hcur : current ∈ allIds := inv.workSub current (List.mem_cons_self _ _)
      by_cases hproc : processed.contains current = true
      · have heq : bfsAux ps (fuel + 1) allIds (current :: rest) processed
            = bfsAux ps fuel allIds rest processed := by
          simp only [bfsAux]
          rw [if_pos hproc]
        rw [heq]
        refine ih allIds rest processed ?_ ?_
        · refine ⟨inv.nodup, inv.rootMem,
            (fun x hx => inv.workSub x (List.mem_cons_of_mem _ hx)),
            inv.sound, inv.procClosed, ?_⟩
          intro x hx
          rcases inv.covered x hx with h | h
          · rcases List.mem_cons.mp h with rfl | h2
            · exact Or.inr ((contains_eq_decide_mem _ _ ▸ hproc) |> of_decide_eq_true)
            · exact Or.inl h2
          · exact Or.inr h
        · simp only [List.length_cons] at hlt
          omega
      · have heq : bfsAux ps (fuel + 1) allIds (current :: rest) processed
            = bfsAux ps fuel
                (addChildren (allIds, rest) (childIds ps current)).1
                (addChildren (allIds, rest) (childIds ps current)).2
                (current :: processed) := by
          simp only [bfsAux]
          rw [if_neg hproc]
        rw [heq]
        refine ih _ _ _ ?_ ?_
        · refine ⟨?_, ?_, ?_, ?_, ?_, ?_⟩
          · exact addChildren_nodup _ (allIds, rest) inv.nodup
          · exact addChildren_fst_mono _ (allIds, rest) root inv.rootMem
          · refine addChildren_snd_sub_fst _ (allIds, rest) ?_
            intro x hx
            exact inv.workSub x (List.mem_cons_of_mem _ hx)
          · intro x hx
            rcases addChildren_fst_sub _ (allIds, rest) x hx with h | h
            · exact inv.sound x h
            · exact Reach.step (inv.sound current hcur) h
          · intro x hx c hc
            rcases List.mem_cons.mp hx with rfl | h2
            · exact addChildren_mem_fst _ (allIds, rest) c hc
            · exact addChildren_fst_mono _ (allIds, rest) c
                (inv.procClosed x h2 c hc)
          · intro x hx
            rcases addChildren_fst_split _ (allIds, rest) x hx with h | h
            · rcases inv.covered x h with h2 | h2
              · rcases List.mem_cons.mp h2 with rfl | h3
                · exact Or.inr (List.mem_cons_self _ _)
                · exact Or.inl (addChildren_snd_mono _ (allIds, rest) x h3)
              · exact Or.inr (List.mem_cons_of_mem _ h2)
            · exact Or.inl h
        · have hm : (addChildren (allIds, rest) (childIds ps current)).2.length
              + remaining ps (addChildren (allIds, rest) (childIds ps current)).1
              ≤ rest.length + remaining ps allIds :=
            addChildren_measure ps (childIds ps current) (allIds, rest)
              (childIds_sub_ids ps current)
          simp only [List.length_cons] at hlt
          omega

theorem getAllChildPageIds_spec (ps : List Page) (root : String) :
    ∃ l, getAllChildPageIdsRecursive ps root = some l ∧ l.Nodup ∧
      ∀ x, x ∈ l ↔ Reach ps root x := by
  have hrem : remaining ps [root] ≤ ps.length := by
    unfold remaining
    calc (ps.map (fun p => p.id)).countP (fun i => !([root].contains i))
        ≤ (ps.map (fun p => p.id)).length := List.countP_le_length _
      _ = ps.length := List.length_map _ _
  refine bfsAux_spec ps root (ps.length + 2) [root] [root] [] ?_ ?_
  · refine ⟨List.nodup_singleton _, List.mem_singleton.mpr rfl,
      (fun x hx => hx), ?_, ?_, ?_⟩
    · intro x hx
      rw [List.mem_singleton.mp hx]
      exact Reach.refl
    · intro x hx
      exact absurd hx (List.not_mem_nil _)
    · intro x hx
      exact Or.inl hx
  · simp only [List.length_singleton]
    omega

/-! ### The capped ancestor walk -/

theorem getPageDepthAux_eq (ps : List Page) (fuel : Nat) (x : String) (d : Nat) :
    getPageDepthAux ps (fuel + 1) x d =
      match (findPage ps x).bind (fun p => p.parentId) with
      | none => d
      | some parId =>
        if parId == "" then d
        else if d + 1 > 50 then d + 1
        else getPageDepthAux ps fuel parId (d + 1) := rfl

theorem getPageDepthAux_none (ps : List Page) (fuel : Nat) (x : String)
    (d : Nat) (hb : (findPage ps x).bind (fun p => p.parentId) = none) :
    getPageDepthAux ps (fuel + 1) x d = d := by
  rw [getPageDepthAux_eq, hb]

theorem getPageDepthAux_empty (ps : List Page) (fuel : Nat) (x : String)
    (d : Nat) (y : String)
    (hb : (findPage ps x).bind (fun p => p.parentId) = some y)
    (he : (y == "") = true) : getPageDepthAux ps (fuel + 1) x d = d := by
  rw [getPageDepthAux_eq, hb]
  show (if (y == "") = true then d
    else if d + 1 > 50 then d + 1 else getPageDepthAux ps fuel y (d + 1)) = d
  rw [if_pos he]

theorem getPageDepthAux_cap (ps : List Page) (fuel : Nat) (x : String)
    (d : Nat) (y : String)
    (hb : (findPage ps x).bind (fun p => p.parentId) = some y)
    (he : ¬(y == "") = true) (hc : d + 1 > 50) :
    getPageDepthAux ps (fuel + 1) x d = d + 1 := by
  rw [getPageDepthAux_eq, hb]
  show (if (y == "") = true then d
    else if d + 1 > 50 then d + 1 else getPageDepthAux ps fuel y (d + 1)) = d + 1
  rw [if_neg he, if_pos hc]

theorem getPageDepthAux_step (ps : List Page) (fuel : Nat) (x : String)
    (d : Nat) (y : String)
    (hb : (findPage ps x).bind (fun p => p.parentId) = some y)
    (he : ¬(y == "") = true) (hc : ¬d + 1 > 50) :
    getPageDepthAux ps (fuel + 1) x d = getPageDepthAux ps fuel y (d + 1) := by
  rw [getPageDepthAux_eq, hb]
  show (if (y == "") = true then d
    else if d + 1 > 50 then d + 1 else getPageDepthAux ps fuel y (d + 1))
    = getPageDepthAux ps fuel y (d + 1)
  rw [if_neg he, if_neg hc]

theorem getPageDepthAux_le (ps : List Page) :
    ∀ (fuel : Nat) (x : String) (d : Nat), d + fuel ≤ 51 →
      getPageDepthAux ps fuel x d ≤ 51 := by
  intro fuel
  induction fuel with
  | zero => intro x d hd; unfold getPageDepthAux; omega
  | succ fuel ih =>
    intro x d hd
    match hb : (findPage ps x).bind (fun p => p.parentId) with
    | none => rw [getPageDepthAux_none ps fuel x d hb]; omega
    | some y =>
      by_cases he : (y == "") = true
      · rw [getPageDepthAux_empty ps fuel x d y hb he]; omega
      · by_cases hc : d + 1 > 50
        · rw [getPageDepthAux_cap ps fuel x d y hb he hc]; omega
        · rw [getPageDepthAux_step ps fuel x d y hb he hc]
          exact ih y (d + 1) (by omega)

theorem getPageDepthAux_succ (ps : List Page) :
    ∀ (g : Nat) (x : String) (d : Nat), g + d = 50 →
      getPageDepthAux ps (g + 1) x d ≤ 50 →
      getPageDepthAux ps g x (d + 1) = getPageDepthAux ps (g + 1) x d + 1 := by
  intro g
  induction g with
  | zero =>
    intro x d hgd h
    have hd : d = 50 := by omega
    subst hd
    match hb : (findPage ps x).bind (fun p => p.parentId) with
    | none =>
      rw [getPageDepthAux_none ps 0 x 50 hb]
      unfold getPageDepthAux
      rfl
    | some y =>
      by_cases he : (y == "") = true
      · rw [getPageDepthAux_empty ps 0 x 50 y hb he]
        unfold getPageDepthAux
        rfl
      · rw [getPageDepthAux_cap ps 0 x 50 y hb he (by omega)] at h
        omega
  | succ g ih =>
    intro x d hgd h
    match hb : (findPage ps x).bind (fun p => p.parentId) with
    | none =>
      rw [getPageDepthAux_none ps (g + 1) x d hb, getPageDepthAux_none ps g x (d + 1) hb]
    | some y =>
      by_cases he : (y == "") = true
      · rw [getPageDepthAux_empty ps (g + 1) x d y hb he,
          getPageDepthAux_empty ps g x (d + 1) y hb he]
      · have hc : ¬d + 1 > 50 := by omega
        rw [getPageDepthAux_step ps (g + 1) x d y hb he hc] at h ⊢
        by_cases hc2 : d + 1 + 1 > 50
        · have hd : d + 1 = 50 := by omega
          have hg : g = 0 := by omega
          subst hg
          rw [getPageDepthAux_cap ps 0 x (d + 1) y hb he hc2]
          match hb2 : (findPage ps y).bind (fun p => p.parentId) with
          | none => rw [getPageDepthAux_none ps 0 y (d + 1) hb2]
          | some z =>
            by_cases he2 : (z == "") = true
            · rw [getPageDepthAux_empty ps 0 y (d + 1) z hb2 he2]
            · rw [getPageDepthAux_cap ps 0 y (d + 1) z hb2 he2 (by omega)] at h
              omega
        · rw [getPageDepthAux_step ps g x (d + 1) y hb he hc2]
          exact ih y (d + 1) (by omega) h

theorem getPageDepth_le (ps : List Page) (pid : String) :
    getPageDepth ps pid ≤ 51 :=
  getPageDepthAux_le ps 51 pid 0 (by omega)

theorem findPage_self (ps : List Page) (q : Page)
    (hnodup : (ps.map (fun p => p.id)).Nodup) (hq : q ∈ ps) :
    findPage ps q.id = some q := by
  induction ps with
  | nil => cases hq
  | cons a as ih =>
    rcases List.mem_cons.mp hq with rfl | hq2
    · unfold findPage
      exact List.find?_cons_of_pos _ (by simp)
    · have hnd : (∀ x ∈ as, ¬x.id = a.id) ∧
          (List.map (fun p => p.id) as).Nodup := by
        simpa using hnodup
      have hne : (a.id == q.id) = false := by
        refine beq_eq_false_iff_ne.mpr ?_
        intro hcon
        exact hnd.1 q hq2 hcon.symm
      unfold findPage
      rw [List.find?_cons, hne]
      exact ih hnd.2 hq2

theorem getPageDepth_parent (ps : List Page) (q : Page)
    (hnodup : (ps.map (fun p => p.id)).Nodup) (hq : q ∈ ps)
    (par : String) (hpar : q.parentId = some par) (hpne : par ≠ "")
    (hble : getPageDepth ps par ≤ 50) :
    getPageDepth ps q.id = getPageDepth ps par + 1 := by
  have hf : findPage ps q.id = some q := findPage_self ps q hnodup hq
  have hb : (findPage ps q.id).bind (fun p => p.parentId) = some par := by
    rw [hf]; exact hpar
  unfold getPageDepth at hble ⊢
  rw [getPageDepthAux_step ps 50 q.id 0 par hb (by simpa using hpne) (by omega)]
  exact getPageDepthAux_succ ps 50 par 0 (by omega) hble

/-! ### The depth-descending sort -/

theorem insertByDepthDesc_perm (x : String × Nat) (l : List (String × Nat)) :
    List.Perm (insertByDepthDesc x l) (x :: l) := by
  induction l with
  | nil => exact List.Perm.refl _
  | cons y ys ih =>
    unfold insertByDepthDesc
    split
    · exact List.Perm.refl _
    · exact (ih.cons y).trans (List.Perm.swap x y ys)

theorem sortPairsByDepthDesc_perm (l : List (String × Nat)) :
    List.Perm (sortPairsByDepthDesc l) l := by
  induction l with
  | nil => exact List.Perm.refl _
  | cons x xs ih =>
    exact (insertByDepthDesc_perm x (sortPairsByDepthDesc xs)).trans (ih.cons x)

theorem insertByDepthDesc_sorted (x : String × Nat) (l : List (String × Nat))
    (h : l.Pairwise (fun a b => b.2 ≤ a.2)) :
    (insertByDepthDesc x l).Pairwise (fun a b => b.2 ≤ a.2) := by
  induction l with
  | nil => simp [insertByDepthDesc]
  | cons y ys ih =>
    rcases List.pairwise_cons.mp h with ⟨hy, hys⟩
    unfold insertByDepthDesc
    split
    · next hlt =>
      refine List.pairwise_cons.mpr ⟨?_, h⟩
      intro z hz
      rcases List.mem_cons.mp hz with rfl | hz2
      · omega
      · have := hy z hz2
        omega
    · next hge =>
      refine List.pairwise_cons.mpr ⟨?_, ih hys⟩
      intro z hz
      have hz2 := (insertByDepthDesc_perm x ys).mem_iff.mp hz
      rcases List.mem_cons.mp hz2 with rfl | hz3
      · omega
      · exact hy z hz3

theorem sortPairsByDepthDesc_sorted (l : List (String × Nat)) :
    (sortPairsByDepthDesc l).Pairwise (fun a b => b.2 ≤ a.2) := by
  induction l with
  | nil => simp [sortPairsByDepthDesc]
  | cons x xs ih => exact insertByDepthDesc_sorted x _ ih

theorem sortPagesByDepth_perm (ps : List Page) (ids : List String) :
    List.Perm (sortPagesByDepth ps ids) ids := by
  unfold sortPagesByDepth
  have h2 := (sortPairsByDepthDesc_perm
    (ids.map (fun i => (i, getPageDepth ps i)))).map (fun x : String × Nat => x.1)
  simpa [Function.comp_def] using h2

theorem sortPagesByDepth_sorted (ps : List Page) (ids : List String) :
    (sortPagesByDepth ps ids).Pairwise
      (fun a b => getPageDepth ps b ≤ getPageDepth ps a) := by
  unfold sortPagesByDepth
  have hs := sortPairsByDepthDesc_sorted (ids.map (fun i => (i, getPageDepth ps i)))
  refine List.pairwise_map.mpr ?_
  refine List.Pairwise.imp_of_mem ?_ hs
  intro a b ha hb hab
  have hmem : ∀ x : String × Nat,
      x ∈ sortPairsByDepthDesc (ids.map (fun i => (i, getPageDepth ps i))) →
        x.2 = getPageDepth ps x.1 := by
    intro x hx
    have hx2 : x ∈ ids.map (fun i => (i, getPageDepth ps i)) :=
      (sortPairsByDepthDesc_perm _).subset hx
    rcases List.mem_map.mp hx2 with ⟨i, _, rfl⟩
    rfl
  rw [hmem a ha, hmem b hb] at hab
  exact hab

/-! ### Branch characterizations of the `PUT /api/pages` handler -/

theorem updatePageCore_emptyId (s : Store) (req : UpdateReq)
    (descRes : Except String (List String)) (h : (req.id == "") = true) :
    updatePageCore s req descRes = (s, Except.error "Page ID is required") := by
  unfold updatePageCore
  rw [if_pos h]

theorem updatePageCore_notFound (s : Store) (req : UpdateReq)
    (descRes : Except String (List String)) (h1 : (req.id == "") = false)
    (h2 : findPage s.pages req.id = none) :
    updatePageCore s req descRes = (s, Except.error "Page not found") := by
  unfold updatePageCore
  rw [if_neg (by simp [h1]), h2]

theorem updatePageCore_moveErr (s : Store) (req : UpdateReq)
    (descRes : Except String (List String)) (cur : Page) (msg : String)
    (h1 : (req.id == "") = false) (h2 : findPage s.pages req.id = some cur)
    (h3 : moveValidationError cur req descRes = some msg) :
    updatePageCore s req descRes = (s, Except.error msg) := by
  unfold updatePageCore
  rw [if_neg (by simp [h1]), h2]
  show (match moveValidationError cur req descRes with
    | some msg => (s, Except.error msg)
    | none =>
      let fc := inheritContainment s.pages cur req
      if optTruthy fc.1 ∧ fc.1 ≠ cur.sectionId ∧
          ¬ (s.sections.any (fun sec => some sec.1 == fc.1)) then
        (s, Except.error "Section not found")
      else if optTruthy fc.2 ∧ fc.2 ≠ cur.subsectionId ∧
          ¬ (s.subsections.any (fun r => some r.1 == fc.2 && some r.2 == fc.1)) then
        (s, Except.error "Subsection not found or does not belong to section")
      else if ¬ hasUpdatableFields cur req fc.1 fc.2 then
        (s, Except.error "No fields to update")
      else
        let newPage := applyPageUpdate cur req fc.1 fc.2
        ({ s with pages := s.pages.map (fun p => if p.id == req.id then newPage else p) },
          Except.ok newPage)) = (s, Except.error msg)
  rw [h3]

theorem moveValidationError_sameParent (cur : Page) (req : UpdateReq)
    (descRes : Except String (List String)) (pv : Option String)
    (hpv : req.parentId = some pv) (h : pv = cur.parentId) :
    moveValidationError cur req descRes = none := by
  unfold moveValidationError
  rw [hpv]
  show (if pv == cur.parentId then none else _) = none
  rw [if_pos (by simp [h])]

theorem moveValidationError_selfParent (cur : Page) (req : UpdateReq)
    (descRes : Except String (List String))
    (hpv : req.parentId = some (some req.id)) (h : some req.id ≠ cur.parentId) :
    moveValidationError cur req descRes = some "Page cannot be its own parent" := by
  unfold moveValidationError
  rw [hpv]
  show (if some req.id == cur.parentId then none
    else if some req.id == some req.id then some "Page cannot be its own parent"
    else _) = _
  rw [if_neg (by simp [h]), if_pos (by simp)]

theorem moveValidationError_circular (cur : Page) (req : UpdateReq)
    (descRes : Except String (List String)) (b : String)
    (hpv : req.parentId = some (some b)) (h1 : some b ≠ cur.parentId)
    (h2 : b ≠ req.id) (h3 : b ≠ "")
    (h4 : checkCircularReference descRes b = true) :
    moveValidationError cur req descRes =
      some "This would create a circular reference" := by
  unfold moveValidationError
  rw [hpv]
  show (if some b == cur.parentId then none
    else if some b == some req.id then some "Page cannot be its own parent"
    else if b == "" then none
    else if checkCircularReference descRes b then
      some "This would create a circular reference"
    else none) = _
  rw [if_neg (by simp [h1]), if_neg (by simp [h2]), if_neg (by simp [h3]),
    if_pos h4]

theorem moveValidationError_clear (cur : Page) (req : UpdateReq)
    (descRes : Except String (List String)) (b : String)
    (hpv : req.parentId = some (some b)) (h1 : some b ≠ cur.parentId)
    (h2 : b ≠ req.id) (h3 : b ≠ "")
    (h4 : checkCircularReference descRes b = false) :
    moveValidationError cur req descRes = none := by
  unfold moveValidationError
  rw [hpv]
  show (if some b == cur.parentId then none
    else if some b == some req.id then some "Page cannot be its own parent"
    else if b == "" then none
    else if checkCircularReference descRes b then
      some "This would create a circular reference"
    else none) = _
  rw [if_neg (by simp [h1]), if_neg (by simp [h2]), if_neg (by simp [h3]),
    if_neg (by simp [h4])]

/-! ### Branch characterizations of the `DELETE /api/pages` handler -/

theorem deletePages_some (s : Store) (pid : String) (dc : Option String) :
    deletePages s (some pid) dc = deletePagesGo s pid dc := rfl

theorem deletePagesGo_emptyId (s : Store) (pid : String) (dc : Option String)
    (h : (pid == "") = true) :
    deletePagesGo s pid dc = (s, Except.error "Page ID is required") := by
  unfold deletePagesGo
  rw [if_pos h]

theorem deletePagesGo_notFound (s : Store) (pid : String) (dc : Option String)
    (h1 : (pid == "") = false) (h2 : findPage s.pages pid = none) :
    deletePagesGo s pid dc = (s, Except.error "Page not found") := by
  unfold deletePagesGo
  rw [if_neg (by simp [h1]), h2]

theorem deletePagesGo_cascade_eq (s : Store) (pid : String) (dc : Option String)
    (pg : Page) (ids : List String)
    (hne : (pid == "") = false) (hf : findPage s.pages pid = some pg)
    (hdc : (dc == some "false") = false)
    (hbfs : getAllChildPageIdsRecursive s.pages pid = some ids) :
    deletePagesGo s pid dc =
      ({ s with
          pages := (sortPagesByDepth s.pages ids).foldl
            (fun acc delId => acc.filter (fun q => !(q.id == delId))) s.pages
          blocks := s.blocks.filter (fun b => !(ids.contains b.pageId))
          comments := s.comments.filter (fun c => !(ids.contains c.pageId))
          files := s.files.filter (fun f => !(ids.contains f.pageId)) },
        Except.ok ids) := by
  unfold deletePagesGo
  rw [if_neg (by simp [hne]), hf, hdc]
  simp only [Bool.not_false]
  rw [if_pos trivial, hbfs]

theorem deletePagesGo_noCascade_eq (s : Store) (pid : String)
    (dc : Option String) (pg : Page)
    (hne : (pid == "") = false) (hf : findPage s.pages pid = some pg)
    (hdc : (dc == some "false") = true) :
    deletePagesGo s pid dc =
      ({ s with
          pages := s.pages.filter (fun q => !(q.id == pid))
          blocks := s.blocks.filter (fun b => !([pid].contains b.pageId))
          comments := s.comments.filter (fun c => !([pid].contains c.pageId))
          files := s.files.filter (fun f => !([pid].contains f.pageId)) },
        Except.ok [pid]) := by
  unfold deletePagesGo
  rw [if_neg (by simp [hne]), hf, hdc]
  simp only [Bool.not_true]
  rw [if_neg (by simp)]
  rfl

theorem foldl_remove_eq_filter (l : List String) :
    ∀ ps : List Page,
      l.foldl (fun acc delId => acc.filter (fun q => !(q.id == delId))) ps
        = ps.filter (fun q => !(l.contains q.id)) := by
  induction l with
  | nil =>
    intro ps
    simp [List.filter_eq_self]
  | cons a as ih =>
    intro ps
    rw [List.foldl_cons, ih, List.filter_filter]
    refine List.filter_congr ?_
    intro q _
    rw [contains_eq_decide_mem, contains_eq_decide_mem]
    by_cases h1 : q.id = a
    · simp [h1]
    · by_cases h2 : q.id ∈ as <;> simp [h1, h2]

theorem filter_bang_contains_congr {α : Type} (rows : List α) (f : α → String)
    (l1 l2 : List String) (hp : List.Perm l1 l2) :
    rows.filter (fun r => !(l1.contains (f r)))
      = rows.filter (fun r => !(l2.contains (f r))) := by
  refine List.filter_congr ?_
  intro r _
  rw [contains_eq_decide_mem, contains_eq_decide_mem]
  by_cases h : f r ∈ l1
  · simp [h, hp.mem_iff.mp h]
  · have h2 : f r ∉ l2 := fun hc => h (hp.mem_iff.mpr hc)
    simp [h, h2]

/-! ### Gap-closing preserves a contiguous order block -/

theorem range_erase_shift (j m : Nat) :
    ((((List.range (j + 1 + m)).map (fun i : Nat => (i : Int))).erase (j : Int)).map
        (fun o => if (j : Int) < o then o - 1 else o))
      = (List.range (j + m)).map (fun i : Nat => (i : Int)) := by
  have hsplit : List.range (j + 1 + m)
      = List.range (j + 1) ++ (List.range m).map ((j + 1) + ·) :=
    List.range_add (j + 1) m
  have hnotmem : (j : Int) ∉ (List.range j).map (fun i : Nat => (i : Int)) := by
    intro hmem
    rcases List.mem_map.mp hmem with ⟨i, hi, hie⟩
    rw [List.mem_range] at hi
    omega
  rw [hsplit, List.range_succ, List.map_append, List.map_append,
    List.append_assoc, List.map_singleton, List.singleton_append,
    List.erase_append_right _ hnotmem, List.erase_cons_head,
    List.map_append]
  have hA : ((List.range j).map (fun i : Nat => (i : Int))).map
      (fun o => if (j : Int) < o then o - 1 else o)
      = (List.range j).map (fun i : Nat => (i : Int)) := by
    rw [List.map_map]
    refine List.map_eq_map_iff.mpr ?_
    intro i hi
    rw [List.mem_range] at hi
    show (if (j : Int) < (i : Int) then (i : Int) - 1 else (i : Int)) = (i : Int)
    rw [if_neg (by omega)]
  have hB : (((List.range m).map ((j + 1) + ·)).map (fun i : Nat => (i : Int))).map
      (fun o => if (j : Int) < o then o - 1 else o)
      = ((List.range m).map (j + ·)).map (fun i : Nat => (i : Int)) := by
    rw [List.map_map, List.map_map, List.map_map]
    refine List.map_eq_map_iff.mpr ?_
    intro t _
    show (if (j : Int) < ((j + 1 + t : Nat) : Int) then ((j + 1 + t : Nat) : Int) - 1
      else ((j + 1 + t : Nat) : Int)) = ((j + t : Nat) : Int)
    rw [if_pos (by push_cast; omega)]
    push_cast
    omega
  rw [hA, hB, List.range_add, List.map_append]

theorem shift_erase_perm (l : List Int) (n : Nat) (k : Int)
    (hperm : List.Perm l ((List.range n).map (fun i : Nat => (i : Int)))) (hk : k ∈ l) :
    List.Perm ((l.erase k).map (fun o => if k < o then o - 1 else o))
      ((List.range (n - 1)).map (fun i : Nat => (i : Int))) := by
  have hkmem : k ∈ (List.range n).map (fun i : Nat => (i : Int)) := hperm.subset hk
  obtain ⟨j, hj, hje⟩ := List.mem_map.mp hkmem
  rw [List.mem_range] at hj
  subst hje
  have h1 := (hperm.erase (j : Int)).map
    (fun o => if (j : Int) < o then o - 1 else o)
  refine h1.trans ?_
  obtain ⟨m, rfl⟩ : ∃ m, n = j + 1 + m := ⟨n - 1 - j, by omega⟩
  have hm1 : j + 1 + m - 1 = j + m := by omega
  rw [hm1, range_erase_shift j m]

theorem eq_of_same_id (rows : List Block)
    (hnodup : (rows.map (fun r => r.id)).Nodup) (r b : Block)
    (hr : r ∈ rows) (hb : b ∈ rows) (hid : r.id = b.id) : r = b := by
  induction rows with
  | nil => cases hr
  | cons a as ih =>
    have hnd : (∀ x ∈ as, ¬x.id = a.id) ∧
        (List.map (fun p => p.id) as).Nodup := by
      simpa using hnodup
    rcases List.mem_cons.mp hr with rfl | hr2
    · rcases List.mem_cons.mp hb with rfl | hb2
      · rfl
      · exact absurd hid.symm (hnd.1 b hb2)
    · rcases List.mem_cons.mp hb with rfl | hb2
      · exact absurd hid (hnd.1 r hr2)
      · exact ih hnd.2 hr2 hb2

theorem deleteBlock_ok_blocks (s s2 : Store) (bid : String) (b : Block)
    (hfb : findBlock s.blocks bid = some b)
    (h : deleteBlock s bid = (s2, Except.ok ())) :
    s2.blocks = blocksAfterDelete s bid b := by
  unfold deleteBlock at h
  by_cases hbe : (bid == "") = true
  · rw [if_pos hbe] at h
    simp at h
  · rw [if_neg hbe, hfb] at h
    have h2 : (match findPage s.pages b.pageId with
      | none => ((s, Except.error "Block not found") : Store × Except String Unit)
      | some pg =>
        if !(s.workspaces.contains pg.workspaceId) then
          (s, Except.error "Block not found")
        else ({ s with blocks := blocksAfterDelete s bid b }, Except.ok ()))
        = (s2, Except.ok ()) := h
    match hfp : findPage s.pages b.pageId with
    | none =>
      rw [hfp] at h2
      simp at h2
    | some pg =>
      rw [hfp] at h2
      have h3 : (if !(s.workspaces.contains pg.workspaceId) then
          ((s, Except.error "Block not found") : Store × Except String Unit)
        else ({ s with blocks := blocksAfterDelete s bid b }, Except.ok ()))
          = (s2, Except.ok ()) := h2
      by_cases hws : (!(s.workspaces.contains pg.workspaceId)) = true
      · rw [if_pos hws] at h3
        simp at h3
      · rw [if_neg hws] at h3
        have h4 : ({ s with blocks := blocksAfterDelete s bid b } : Store) = s2 :=
          congrArg Prod.fst h3
        rw [← h4]

/-! ### Claim theorems -/

theorem updatePageCore_ok_shape (s : Store) (req : UpdateReq)
    (descRes : Except String (List String)) (cur : Page)
    (h1 : (req.id == "") = false) (h2 : findPage s.pages req.id = some cur)
    (h3 : moveValidationError cur req descRes = none) (pg : Page)
    (hok : (updatePageCore s req descRes).2 = Except.ok pg) :
    pg = applyPageUpdate cur req (inheritContainment s.pages cur req).1
      (inheritContainment s.pages cur req).2 := by
  unfold updatePageCore at hok
  rw [if_neg (by simp [h1]), h2] at hok
  have hok2 : ((match moveValidationError cur req descRes with
    | some msg => (s, Except.error msg)
    | none =>
      let fc := inheritContainment s.pages cur req
      if optTruthy fc.1 ∧ fc.1 ≠ cur.sectionId ∧
          ¬ (s.sections.any (fun sec => some sec.1 == fc.1)) then
        (s, Except.error "Section not found")
      else if optTruthy fc.2 ∧ fc.2 ≠ cur.subsectionId ∧
          ¬ (s.subsections.any (fun r => some r.1 == fc.2 && some r.2 == fc.1)) then
        (s, Except.error "Subsection not found or does not belong to section")
      else if ¬ hasUpdatableFields cur req fc.1 fc.2 then
        (s, Except.error "No fields to update")
      else
        let newPage := applyPageUpdate cur req fc.1 fc.2
        ({ s with pages := s.pages.map (fun p => if p.id == req.id then newPage else p) },
          Except.ok newPage)) : Store × Except String Page).2 = Except.ok pg := hok
  rw [h3] at hok2
  by_cases hc1 : optTruthy (inheritContainment s.pages cur req).1 ∧
      (inheritContainment s.pages cur req).1 ≠ cur.sectionId ∧
      ¬ (s.sections.any (fun sec => some sec.1 == (inheritContainment s.pages cur req).1))
  · rw [if_pos hc1] at hok2
    simp at hok2
  · rw [if_neg hc1] at hok2
    by_cases hc2 : optTruthy (inheritContainment s.pages cur req).2 ∧
        (inheritContainment s.pages cur req).2 ≠ cur.subsectionId ∧
        ¬ (s.subsections.any (fun r => some r.1 == (inheritContainment s.pages cur req).2
            && some r.2 == (inheritContainment s.pages cur req).1))
    · rw [if_pos hc2] at hok2
      simp at hok2
    · rw [if_neg hc2] at hok2
      by_cases hc3 : ¬ hasUpdatableFields cur req (inheritContainment s.pages cur req).1
          (inheritContainment s.pages cur req).2
      · rw [if_pos hc3] at hok2
        simp at hok2
      · rw [if_neg hc3] at hok2
        simpa using hok2.symm

/-- C9: the descendant enumeration (`getAllChildPageIdsRecursive`) is a
breadth-first worklist traversal with a visited set; it terminates on every
store — including stores that already contain a parent cycle — and returns
each id reachable from the start page (the page itself and its descendants)
exactly once. -/
theorem descendant_enumeration_spec (ps : List Page) (root : String) :
    ∃ l, getAllChildPageIdsRecursive ps root = some l ∧ l.Nodup ∧
      ∀ x, x ∈ l ↔ Reach ps root x :=
  getAllChildPageIds_spec ps root

/-- C5 counterexample: in a corrupted store whose single page `"a"` is its
own parent (so its ancestor chain exceeds the 50-hop ceiling), the depth
computation silently returns the capped value 51 — no error value exists —
and the cascading delete that consumes this depth succeeds without
reporting anything. -/
theorem depth_cycle_silently_capped_cx :
    getPageDepth sCyc.pages "a" = 51 ∧
      (deletePages sCyc (some "a") none).2 = Except.ok ["a"] :=
  ⟨rfl, rfl⟩

/-- C5 (amended): when a node's ancestor chain exceeds the 50-hop ceiling,
`getPageDepth` stops the walk and returns the silently capped value (at
most 51, and exactly 51 when the cap is hit); it only logs a console
warning and never reports a `DepthLimitExceeded`-style error to the
caller. -/
theorem depth_walk_is_capped_not_reported (ps : List Page) (pid : String) :
    getPageDepth ps pid ≤ 51 :=
  getPageDepth_le ps pid

/-- C1: a `PUT /api/pages` request that asks to reparent page `A` under a
target `B` always fails with an error when `B = A` or `B` is a descendant
of `A` (`Reach` covers both), as long as the stored parent pointers are
acyclic and `B` is a non-empty id; the store is returned unchanged (the
transaction rolled back before any write). -/
theorem movePage_rejects_circular (s : Store) (A B : String) (req : UpdateReq)
    (hid : req.id = A) (hpv : req.parentId = some (some B))
    (hnc : NoCycle s.pages) (hreach : Reach s.pages A B) (hBne : B ≠ "") :
    (updatePage s req).1 = s ∧
      ∃ msg, (updatePage s req).2 = Except.error msg := by
  subst hid
  unfold updatePage
  by_cases hempty : (req.id == "") = true
  · rw [updatePageCore_emptyId s req _ hempty]
    exact ⟨rfl, _, rfl⟩
  · have hemp : (req.id == "") = false := Bool.eq_false_iff.mpr hempty
    match hf : findPage s.pages req.id with
    | none =>
      rw [updatePageCore_notFound s req _ hemp hf]
      exact ⟨rfl, _, rfl⟩
    | some cur =>
      have hcurmem : cur ∈ s.pages := List.mem_of_find?_eq_some hf
      have hcurid : cur.id = req.id := by
        have h := List.find?_some hf
        simpa using h
      by_cases hpeq : (some B : Option String) = cur.parentId
      · exfalso
        refine hnc cur hcurmem B hpeq.symm ?_
        rw [hcurid]
        exact hreach
      · by_cases hself : B = req.id
        · have h3 := moveValidationError_selfParent cur req
            (runDescendantQuery s.pages req.id) (by rw [hpv, hself])
            (by rw [← hself]; exact hpeq)
          rw [updatePageCore_moveErr s req _ cur _ hemp hf h3]
          exact ⟨rfl, _, rfl⟩
        · obtain ⟨l, hl, _, hiff⟩ := getAllChildPageIds_spec s.pages req.id
          have hrun : runDescendantQuery s.pages req.id = Except.ok l := by
            unfold runDescendantQuery
            rw [hl]
          have hcheck : checkCircularReference
              (runDescendantQuery s.pages req.id) B = true := by
            rw [hrun]
            show l.contains B = true
            rw [contains_eq_decide_mem]
            exact decide_eq_true ((hiff B).mpr hreach)
          have h3 := moveValidationError_circular cur req
            (runDescendantQuery s.pages req.id) B hpv hpeq hself hBne hcheck
          rw [updatePageCore_moveErr s req _ cur _ hemp hf h3]
          exact ⟨rfl, _, rfl⟩

/-- C1 witness: moving the single page `A` of `sOne` under itself fails and
leaves the store unchanged. -/
theorem movePage_rejects_circular_witness :
    (updatePage sOne { id := "A", parentId := some (some "A") }).1 = sOne ∧
      ∃ msg, (updatePage sOne
        { id := "A", parentId := some (some "A") }).2 = Except.error msg := by
  refine movePage_rejects_circular sOne "A" "A" _ rfl rfl ?_ Reach.refl
    (by decide)
  intro p hp par hpar
  have hp2 : p = pageRow "A" none (some "s1") none 0 := by
    have : p ∈ [pageRow "A" none (some "s1") none 0] := hp
    simpa using this
  rw [hp2] at hpar
  exact absurd hpar (by simp [pageRow])

/-- C10: the `try`/`catch` of `checkCircularReference` fails closed — an
error from the descendant query makes the check answer `true` — and a `PUT`
whose descendant query errored can only succeed when the requested parent
equals the page's current parent, so a query failure never lets a real
reparent through. -/
theorem checkCircular_fails_closed (e b : String) (s : Store)
    (req : UpdateReq) (cur pg : Page)
    (hpv : req.parentId = some (some b)) (hbne : b ≠ "")
    (hcur : findPage s.pages req.id = some cur)
    (hok : (updatePageCore s req (Except.error e)).2 = Except.ok pg) :
    checkCircularReference (Except.error e) b = true ∧
      pg.parentId = cur.parentId := by
  refine ⟨rfl, ?_⟩
  by_cases hempty : (req.id == "") = true
  · rw [updatePageCore_emptyId s req _ hempty] at hok
    simp at hok
  · have hemp : (req.id == "") = false := Bool.eq_false_iff.mpr hempty
    by_cases hpeq : (some b : Option String) = cur.parentId
    · have h3 := moveValidationError_sameParent cur req (Except.error e)
        (some b) hpv hpeq
      have hshape := updatePageCore_ok_shape s req (Except.error e) cur hemp
        hcur h3 pg hok
      rw [hshape]
      unfold applyPageUpdate
      rw [hpv]
      exact hpeq
    · by_cases hself : b = req.id
      · have h3 := moveValidationError_selfParent cur req (Except.error e)
          (by rw [hpv, hself]) (by rw [← hself]; exact hpeq)
        rw [updatePageCore_moveErr s req _ cur _ hemp hcur h3] at hok
        simp at hok
      · have h3 := moveValidationError_circular cur req (Except.error e) b
          hpv hpeq hself hbne rfl
        rw [updatePageCore_moveErr s req _ cur _ hemp hcur h3] at hok
        simp at hok

/-- C10 witness: with a failing descendant query, a `PUT` keeping page `P`
under its current parent `Q` succeeds without changing the parent link. -/
theorem checkCircular_fails_closed_witness :
    checkCircularReference (Except.error "boom") "Q" = true ∧
      ({ id := "P", workspaceId := "w", sectionId := some "s1",
         subsectionId := none, parentId := some "Q", title := "t",
         pageOrder := 0 } : Page).parentId =
        (pageRow "P" (some "Q") (some "s1") none 0).parentId :=
  checkCircular_fails_closed "boom" "Q" sMove
    { id := "P", parentId := some (some "Q"), title := some "t" }
    (pageRow "P" (some "Q") (some "s1") none 0)
    { id := "P", workspaceId := "w", sectionId := some "s1",
      subsectionId := none, parentId := some "Q", title := "t",
      pageOrder := 0 }
    rfl (by decide) rfl (by rfl)

/-- C2: a committed cascading delete of page `N` (`deleteChildren` not the
literal `'false'`) answers `deletedIds` equal — as a duplicate-free list —
to the set `{N} ∪ descendants(N)` (`Reach s.pages N`), and removes exactly
the page rows with id in that set together with every content block,
comment, and file row whose `page_id` is in that set. -/
theorem cascadeDelete_spec (s s2 : Store) (N : String) (dc : Option String)
    (ids : List String) (hdc : dc ≠ some "false")
    (h : deletePages s (some N) dc = (s2, Except.ok ids)) :
    (∀ x, x ∈ ids ↔ Reach s.pages N x) ∧ ids.Nodup ∧
      s2.pages = s.pages.filter (fun p => !(ids.contains p.id)) ∧
      s2.blocks = s.blocks.filter (fun b => !(ids.contains b.pageId)) ∧
      s2.comments = s.comments.filter (fun c => !(ids.contains c.pageId)) ∧
      s2.files = s.files.filter (fun f => !(ids.contains f.pageId)) := by
  rw [deletePages_some] at h
  by_cases hne : (N == "") = true
  · rw [deletePagesGo_emptyId s N dc hne] at h
    simp at h
  · have hne2 : (N == "") = false := Bool.eq_false_iff.mpr hne
    match hf : findPage s.pages N with
    | none =>
      rw [deletePagesGo_notFound s N dc hne2 hf] at h
      simp at h
    | some pg =>
      have hdc2 : (dc == some "false") = false := beq_eq_false_iff_ne.mpr hdc
      obtain ⟨l, hl, hnd, hiff⟩ := getAllChildPageIds_spec s.pages N
      rw [deletePagesGo_cascade_eq s N dc pg l hne2 hf hdc2 hl] at h
      have hids : ids = l := by
        have h2 := congrArg Prod.snd h
        simpa using h2.symm
      subst hids
      have hs2 : s2 = { s with
          pages := (sortPagesByDepth s.pages ids).foldl
            (fun acc delId => acc.filter (fun q => !(q.id == delId))) s.pages
          blocks := s.blocks.filter (fun b => !(ids.contains b.pageId))
          comments := s.comments.filter (fun c => !(ids.contains c.pageId))
          files := s.files.filter (fun f => !(ids.contains f.pageId)) } :=
        (congrArg Prod.fst h).symm
      subst hs2
      refine ⟨hiff, hnd, ?_, rfl, rfl, rfl⟩
      show (sortPagesByDepth s.pages ids).foldl
          (fun acc delId => acc.filter (fun q => !(q.id == delId))) s.pages
        = s.pages.filter (fun p => !(ids.contains p.id))
      rw [foldl_remove_eq_filter]
      exact filter_bang_contains_congr s.pages (fun q => q.id)
        (sortPagesByDepth s.pages ids) ids (sortPagesByDepth_perm s.pages ids)

/-- C2 witness: cascade deletion of `"N"` in `sDel` deletes the chain
`N, C1, C2`, their blocks, comments, and files, and nothing else. -/
theorem cascadeDelete_spec_witness :
    (∀ x, x ∈ ["N", "C1", "C2"] ↔ Reach sDel.pages "N" x) ∧
      (["N", "C1", "C2"] : List String).Nodup ∧
      sDelAfter.pages = sDel.pages.filter
        (fun p => !((["N", "C1", "C2"] : List String).contains p.id)) ∧
      sDelAfter.blocks = sDel.blocks.filter
        (fun b => !((["N", "C1", "C2"] : List String).contains b.pageId)) ∧
      sDelAfter.comments = sDel.comments.filter
        (fun c => !((["N", "C1", "C2"] : List String).contains c.pageId)) ∧
      sDelAfter.files = sDel.files.filter
        (fun f => !((["N", "C1", "C2"] : List String).contains f.pageId)) :=
  cascadeDelete_spec sDel sDelAfter "N" none ["N", "C1", "C2"]
    (by decide) (by rfl)

/-- C4: inside a committed cascading delete, the page rows are deleted in
the order `sortPagesByDepth` — a permutation of the collected delete set
ordered by `getPageDepth` descending — and that order never deletes a row
while another page row still claims it as parent: any page whose parent is
the `k`-th deleted id already appears among the first `k` deleted ids.
(Hypotheses: page ids are unique, ids in the delete set are non-empty, and
no depth in the set reaches the 50-hop cap, so depths are exact.) -/
theorem cascadeDelete_depth_order (s s2 : Store) (N : String)
    (dc : Option String) (ids : List String)
    (hdc : dc ≠ some "false")
    (h : deletePages s (some N) dc = (s2, Except.ok ids))
    (hnodup : (s.pages.map (fun p => p.id)).Nodup)
    (hne : ∀ i ∈ ids, i ≠ "")
    (hdepth : ∀ i ∈ ids, getPageDepth s.pages i ≤ 50) :
    List.Perm (sortPagesByDepth s.pages ids) ids ∧
      (sortPagesByDepth s.pages ids).Pairwise
        (fun a b => getPageDepth s.pages b ≤ getPageDepth s.pages a) ∧
      ∀ k, ∀ hk : k < (sortPagesByDepth s.pages ids).length, ∀ q ∈ s.pages,
        q.parentId = some ((sortPagesByDepth s.pages ids).get ⟨k, hk⟩) →
        q.id ∈ (sortPagesByDepth s.pages ids).take k := by
  have hiff : ∀ x, x ∈ ids ↔ Reach s.pages N x := by
    rw [deletePages_some] at h
    by_cases hn0 : (N == "") = true
    · rw [deletePagesGo_emptyId s N dc hn0] at h
      simp at h
    · have hn1 : (N == "") = false := Bool.eq_false_iff.mpr hn0
      match hf : findPage s.pages N with
      | none =>
        rw [deletePagesGo_notFound s N dc hn1 hf] at h
        simp at h
      | some pg =>
        have hdc2 : (dc == some "false") = false := beq_eq_false_iff_ne.mpr hdc
        obtain ⟨l, hl, hnd, hiff0⟩ := getAllChildPageIds_spec s.pages N
        rw [deletePagesGo_cascade_eq s N dc pg l hn1 hf hdc2 hl] at h
        have hids : ids = l := by
          have h2 := congrArg Prod.snd h
          simpa using h2.symm
        rw [hids]
        exact hiff0
  refine ⟨sortPagesByDepth_perm s.pages ids, sortPagesByDepth_sorted s.pages ids, ?_⟩
  intro k hk q hq hqpar
  have hperm := sortPagesByDepth_perm s.pages ids
  have hget : (sortPagesByDepth s.pages ids).get ⟨k, hk⟩
      = (sortPagesByDepth s.pages ids)[k] := List.get_eq_getElem _ _
  rw [hget] at hqpar
  have hpmem : (sortPagesByDepth s.pages ids)[k] ∈ sortPagesByDepth s.pages ids :=
    List.getElem_mem hk
  have hpids : (sortPagesByDepth s.pages ids)[k] ∈ ids := hperm.subset hpmem
  have hqchild : q.id ∈ childIds s.pages ((sortPagesByDepth s.pages ids)[k]) := by
    unfold childIds
    refine List.mem_map.mpr ⟨q, ?_, rfl⟩
    refine List.mem_filter.mpr ⟨hq, ?_⟩
    simp [hqpar]
  have hqreach : Reach s.pages N q.id :=
    Reach.step ((hiff _).mp hpids) hqchild
  have hqids : q.id ∈ ids := (hiff q.id).mpr hqreach
  have hqsorted : q.id ∈ sortPagesByDepth s.pages ids := hperm.mem_iff.mpr hqids
  obtain ⟨j, hj, hjq⟩ := List.mem_iff_getElem.mp hqsorted
  have hdq : getPageDepth s.pages q.id
      = getPageDepth s.pages ((sortPagesByDepth s.pages ids)[k]) + 1 :=
    getPageDepth_parent s.pages q hnodup hq _ hqpar (hne _ hpids) (hdepth _ hpids)
  have hpair := List.pairwise_iff_getElem.mp (sortPagesByDepth_sorted s.pages ids)
  have hjk : j < k := by
    rcases Nat.lt_trichotomy j k with hlt | heq | hgt
    · exact hlt
    · exfalso
      have hjq2 : (sortPagesByDepth s.pages ids)[k] = q.id := by
        subst heq
        exact hjq
      rw [hjq2] at hdq
      omega
    · exfalso
      have hle := hpair k j hk hj hgt
      rw [hjq, hdq] at hle
      omega
  have hjt : j < ((sortPagesByDepth s.pages ids).take k).length := by
    simp only [List.length_take]
    omega
  have heq2 : ((sortPagesByDepth s.pages ids).take k)[j]
      = (sortPagesByDepth s.pages ids)[j] := List.getElem_take _
  rw [← hjq, ← heq2]
  exact List.getElem_mem hjt

/-- C4 witness: deleting `"N"` from `sDel` removes the rows in the order
`C2, C1, N` — deepest first — and no remaining row ever references a
deleted page. -/
theorem cascadeDelete_depth_order_witness :
    List.Perm (sortPagesByDepth sDel.pages ["N", "C1", "C2"]) ["N", "C1", "C2"] ∧
      (sortPagesByDepth sDel.pages ["N", "C1", "C2"]).Pairwise
        (fun a b => getPageDepth sDel.pages b ≤ getPageDepth sDel.pages a) ∧
      ∀ k, ∀ hk : k < (sortPagesByDepth sDel.pages ["N", "C1", "C2"]).length,
        ∀ q ∈ sDel.pages,
        q.parentId = some ((sortPagesByDepth sDel.pages ["N", "C1", "C2"]).get ⟨k, hk⟩) →
        q.id ∈ (sortPagesByDepth sDel.pages ["N", "C1", "C2"]).take k :=
  cascadeDelete_depth_order sDel sDelAfter "N" none ["N", "C1", "C2"]
    (by decide) (by rfl) (by decide) (by decide) (by decide)

/-- C6 counterexample: with `deleteChildren='false'` and target `Q`, which
has the child `P`, the handler does not fail with a validation error: it
succeeds, reports `deletedIds = ["Q"]`, and leaves `P` in the store with a
dangling parent pointer to the deleted `Q`. -/
theorem noCascadeDelete_nonLeaf_cx :
    (deletePages sMove (some "Q") (some "false")).2 = Except.ok ["Q"] ∧
      (pageRow "P" (some "Q") (some "s1") none 0) ∈
        (deletePages sMove (some "Q") (some "false")).1.pages ∧
      (pageRow "P" (some "Q") (some "s1") none 0).parentId = some "Q" := by
  decide

/-- C6 (amended): `deleteChildren='false'` performs no leaf check at all.
For any existing target page — with or without children — the delete
succeeds, removes exactly the target's page row and the dependent rows
owned by the target itself, and reports `deletedIds = [N]`; descendant
pages are not touched by the handler (only the schema's
`ON DELETE CASCADE` foreign keys would remove them). -/
theorem noCascadeDelete_no_leaf_check (s : Store) (N : String) (pg : Page)
    (hne : N ≠ "") (hf : findPage s.pages N = some pg) :
    deletePages s (some N) (some "false") =
      ({ s with
          pages := s.pages.filter (fun q => !(q.id == N))
          blocks := s.blocks.filter (fun b => !([N].contains b.pageId))
          comments := s.comments.filter (fun c => !([N].contains c.pageId))
          files := s.files.filter (fun f => !([N].contains f.pageId)) },
        Except.ok [N]) := by
  rw [deletePages_some]
  exact deletePagesGo_noCascade_eq s N (some "false") pg
    (beq_eq_false_iff_ne.mpr hne) hf rfl

/-- C6 witness: the non-cascading delete of the non-leaf `Q` in `sMove`
commits and removes only the `Q` row. -/
theorem noCascadeDelete_no_leaf_check_witness :
    deletePages sMove (some "Q") (some "false") =
      ({ sMove with
          pages := sMove.pages.filter (fun q => !(q.id == "Q"))
          blocks := sMove.blocks.filter (fun b => !(["Q"].contains b.pageId))
          comments := sMove.comments.filter (fun c => !(["Q"].contains c.pageId))
          files := sMove.files.filter (fun f => !(["Q"].contains f.pageId)) },
        Except.ok ["Q"]) :=
  noCascadeDelete_no_leaf_check sMove "Q" (pageRow "Q" none (some "s1") none 0)
    (by decide) (by rfl)

/-- C3 counterexample: deleting root page `P0` (order 0) of `sGap` commits,
but the surviving sibling `P1` keeps order 1 — the handler performs no
sibling renumbering for pages — so the sibling group's orders are `[1]`,
not the permutation of `0..n-1`. -/
theorem pageDelete_breaks_contiguity_cx :
    (deletePages sGap (some "P0") none).2 = Except.ok ["P0"] ∧
      (((deletePages sGap (some "P0") none).1.pages.filter
        (fun p => p.sectionId == some "s1" && p.subsectionId == none
          && p.parentId == none)).map (fun p => p.pageOrder)) = [1] ∧
      ¬ ordersContiguous [1] := by
  refine ⟨by rfl, by rfl, ?_⟩
  unfold ordersContiguous
  decide

theorem shiftRowAfter_pageId (b r : Block) :
    (shiftRowAfter b r).pageId = r.pageId := by
  unfold shiftRowAfter
  split <;> rfl

/-- C3 (amended): the contiguity invariant is maintained by the block
routes but not by the page route: `DELETE /api/blocks` decrements every
trailing sibling, so a block sibling group whose orders were a permutation
of `0..n-1` is again a permutation of `0..(n-2)` after a committed block
delete; `DELETE /api/pages` performs no sibling renumbering, so a page
sibling group can be left with a gap (see the counterexample). -/
theorem blockDelete_preserves_contiguity (s s2 : Store) (bid : String)
    (b : Block) (hbnodup : (s.blocks.map (fun r => r.id)).Nodup)
    (hfb : findBlock s.blocks bid = some b)
    (h : deleteBlock s bid = (s2, Except.ok ()))
    (hcontig : ordersContiguous
      ((s.blocks.filter (fun r => r.pageId == b.pageId)).map
        (fun r => r.blockOrder))) :
    ordersContiguous
      ((s2.blocks.filter (fun r => r.pageId == b.pageId)).map
        (fun r => r.blockOrder)) := by
  have hblocks := deleteBlock_ok_blocks s s2 bid b hfb h
  have hfb2 : s.blocks.find? (fun r => r.id == bid) = some b := hfb
  have hbmem : b ∈ s.blocks := List.mem_of_find?_eq_some hfb2
  have hbid0 := List.find?_some hfb2
  have hbid : (b.id == bid) = true := hbid0
  have hbgrp : b ∈ s.blocks.filter (fun r => r.pageId == b.pageId) :=
    List.mem_filter.mpr ⟨hbmem, by simp⟩
  rw [hblocks]
  unfold blocksAfterDelete
  rw [List.filter_map]
  have e1 : (s.blocks.filter (fun r => !(r.id == bid))).filter
      (fun r => (shiftRowAfter b r).pageId == b.pageId)
      = (s.blocks.filter (fun r => !(r.id == bid))).filter
        (fun r => r.pageId == b.pageId) := by
    refine List.filter_congr ?_
    intro r _
    rw [shiftRowAfter_pageId]
  have e2 : (s.blocks.filter (fun r => !(r.id == bid))).filter
      (fun r => r.pageId == b.pageId)
      = (s.blocks.filter (fun r => r.pageId == b.pageId)).filter
        (fun r => !(r.id == bid)) :=
    List.filter_comm _ _ _
  have hrowsnodup : (s.blocks.filter (fun r => r.pageId == b.pageId)).Nodup :=
    List.Nodup.of_map _
      (List.Sublist.nodup ((List.filter_sublist _).map _) hbnodup)
  have e3 : (s.blocks.filter (fun r => r.pageId == b.pageId)).filter
      (fun r => !(r.id == bid))
      = (s.blocks.filter (fun r => r.pageId == b.pageId)).erase b := by
    rw [List.Nodup.erase_eq_filter hrowsnodup b]
    refine List.filter_congr ?_
    intro r hr
    by_cases hcr : r = b
    · subst hcr
      simp [hbid]
    · have hid : (r.id == bid) = false := by
        refine beq_eq_false_iff_ne.mpr ?_
        intro hide
        refine hcr (eq_of_same_id s.blocks hbnodup r b
          (List.mem_of_mem_filter hr) hbmem ?_)
        rw [hide, eq_of_beq hbid]
      simp [hid, hcr]
  have hcomp : Function.comp (fun r : Block => r.pageId == b.pageId)
      (shiftRowAfter b) = fun r => (shiftRowAfter b r).pageId == b.pageId := rfl
  rw [hcomp, e1, e2, e3, List.map_map]
  have horders : ((s.blocks.filter (fun r => r.pageId == b.pageId)).erase b).map
      (Function.comp (fun r : Block => r.blockOrder) (shiftRowAfter b))
      = (((s.blocks.filter (fun r => r.pageId == b.pageId)).erase b).map
          (fun r => r.blockOrder)).map
        (fun o => if b.blockOrder < o then o - 1 else o) := by
    rw [List.map_map]
    refine List.map_eq_map_iff.mpr ?_
    intro r hr
    have hrg : r ∈ s.blocks.filter (fun r => r.pageId == b.pageId) :=
      List.mem_of_mem_erase hr
    have hpg : (r.pageId == b.pageId) = true := (List.mem_filter.mp hrg).2
    show (shiftRowAfter b r).blockOrder
      = if b.blockOrder < r.blockOrder then r.blockOrder - 1 else r.blockOrder
    unfold shiftRowAfter
    rw [hpg]
    by_cases hlt : b.blockOrder < r.blockOrder
    · simp [hlt]
    · simp [hlt]
  rw [horders]
  have hperm1 : List.Perm
      ((s.blocks.filter (fun r => r.pageId == b.pageId)).map
        (fun r => r.blockOrder))
      (b.blockOrder :: ((s.blocks.filter
        (fun r => r.pageId == b.pageId)).erase b).map (fun r => r.blockOrder)) :=
    (List.perm_cons_erase hbgrp).map _
  have hperm2 : List.Perm
      (((s.blocks.filter (fun r => r.pageId == b.pageId)).erase b).map
        (fun r => r.blockOrder))
      (((s.blocks.filter (fun r => r.pageId == b.pageId)).map
        (fun r => r.blockOrder)).erase b.blockOrder) := by
    have h5 := hperm1.erase b.blockOrder
    rw [List.erase_cons_head] at h5
    exact h5.symm
  have hk : b.blockOrder ∈ (s.blocks.filter
      (fun r => r.pageId == b.pageId)).map (fun r => r.blockOrder) :=
    List.mem_map.mpr ⟨b, hbgrp, rfl⟩
  have hfinal := (hperm2.map
    (fun o => if b.blockOrder < o then o - 1 else o)).trans
    (shift_erase_perm _ _ b.blockOrder hcontig hk)
  unfold ordersContiguous
  have hlen : ((((s.blocks.filter (fun r => r.pageId == b.pageId)).erase b).map
      (fun r => r.blockOrder)).map
        (fun o => if b.blockOrder < o then o - 1 else o)).length
      = ((s.blocks.filter (fun r => r.pageId == b.pageId)).map
        (fun r => r.blockOrder)).length - 1 := by
    rw [List.length_map, List.length_map, List.length_map,
      List.length_erase_of_mem hbgrp]
  rw [hlen]
  exact hfinal

/-- C3 witness: deleting block `b1` (order 1) from the three-block page of
`sBlocks` leaves orders `0, 1` — still a permutation of `0..1`. -/
theorem blockDelete_preserves_contiguity_witness :
    ordersContiguous
      (((deleteBlock sBlocks "b1").1.blocks.filter
        (fun r => r.pageId == (⟨"b1", "pp", 1⟩ : Block).pageId)).map
        (fun r => r.blockOrder)) := by
  refine blockDelete_preserves_contiguity sBlocks (deleteBlock sBlocks "b1").1
    "b1" ⟨"b1", "pp", 1⟩ (by decide) (by rfl) (by rfl) ?_
  unfold ordersContiguous
  decide

/-- C7 (evaluation at the failing input): the `s1` section-root sibling
group of `sMove` holds exactly one page (`Q`, order 0), yet creating a page
there with no `order` evaluates `(maxOrder || -1) + 1` with `maxOrder = 0`
(falsy in JavaScript), yielding order 0 — a duplicate of the existing
sibling order instead of the append position `max(order) + 1 = 1`.  The
block route computes the same default correctly (`maxOrder !== null`
check), so the claim's `planInsert` description fails only here. -/
theorem createPage_append_order_bug :
    ((sMove.pages.filter (fun p => p.sectionId == some "s1"
        && p.subsectionId == none && p.parentId == none)).map
      (fun p => p.pageOrder)) = [0] ∧
      (createPage sMove "new1"
        { workspaceId := "w", sectionId := some "s1", title := "T" }).2 =
        Except.ok { id := "new1", workspaceId := "w", sectionId := some "s1",
                    subsectionId := none, parentId := none, title := "T",
                    pageOrder := 0 } :=
  ⟨rfl, rfl⟩

/-- C8 counterexample: moving `Q` (section `s1`, with child `P`) under `R`
(section `s2`) commits; `Q` itself correctly inherits `sectionId = s2`,
but its descendant `P` is not updated, so afterwards the store holds a
page (`P`) whose `sectionId` differs from its parent's — it diverges from
its nearest section-bearing ancestor after a committed move. -/
theorem moveInheritance_descendant_divergence_cx :
    ((updatePage sMove { id := "Q", parentId := some (some "R") }).2 =
      Except.ok { id := "Q", workspaceId := "w", sectionId := some "s2",
                  subsectionId := none, parentId := some "R", title := "Q",
                  pageOrder := 0 }) ∧
      (∃ p ∈ (updatePage sMove
          { id := "Q", parentId := some (some "R") }).1.pages,
       ∃ q ∈ (updatePage sMove
          { id := "Q", parentId := some (some "R") }).1.pages,
        p.parentId = some q.id ∧ p.sectionId ≠ q.sectionId) := by
  decide

theorem inheritContainment_move (ps : List Page) (cur : Page)
    (req : UpdateReq) (B : String) (par : Page)
    (hpv : req.parentId = some (some B)) (hne : some B ≠ cur.parentId)
    (hBne : B ≠ "") (hsec : req.sectionId = none) (hsub : req.subsectionId = none)
    (hpar : findPage ps B = some par) :
    inheritContainment ps cur req = (par.sectionId, par.subsectionId) := by
  unfold inheritContainment
  rw [hpv]
  show (if some B ≠ cur.parentId ∧ B ≠ "" then
      match findPage ps B with
      | some par2 =>
        ((if req.sectionId = none then par2.sectionId
          else match req.sectionId with | some v => v | none => cur.sectionId),
         (if req.subsectionId = none then par2.subsectionId
          else match req.subsectionId with | some v => v | none => cur.subsectionId))
      | none =>
        ((match req.sectionId with | some v => v | none => cur.sectionId),
         (match req.subsectionId with | some v => v | none => cur.subsectionId))
    else
      ((match req.sectionId with | some v => v | none => cur.sectionId),
       (match req.subsectionId with | some v => v | none => cur.subsectionId)))
    = (par.sectionId, par.subsectionId)
  rw [if_pos ⟨hne, hBne⟩, hpar]
  show ((if req.sectionId = none then par.sectionId
      else match req.sectionId with | some v => v | none => cur.sectionId),
    (if req.subsectionId = none then par.subsectionId
      else match req.subsectionId with | some v => v | none => cur.subsectionId))
    = (par.sectionId, par.subsectionId)
  rw [if_pos hsec, if_pos hsub]

theorem createPage_inherits (s : Store) (nid : String) (req : CreateReq)
    (B : String) (par : Page)
    (hB : req.parentId = some B) (hBne : B ≠ "")
    (hw : (req.workspaceId == "") = false)
    (hti : (strTrim req.title == "") = false)
    (hcsec : optTruthy req.sectionId = false)
    (hcsub : optTruthy req.subsectionId = false)
    (hpar : findPage s.pages B = some par)
    (hsecT : optTruthy par.sectionId = true)
    (hws : s.workspaces.contains req.workspaceId = true)
    (hsecrow : s.sections.any (fun sec => sec.1 == par.sectionId.getD ""
      && sec.2 == req.workspaceId) = true)
    (hsubok : (optTruthy par.subsectionId && !(s.subsections.any
      (fun r => r.1 == par.subsectionId.getD ""
        && r.2 == par.sectionId.getD ""))) = false) :
    (createPage s nid req).2 = Except.ok
      { id := nid, workspaceId := req.workspaceId,
        sectionId := par.sectionId,
        subsectionId := if optTruthy par.subsectionId then par.subsectionId else none,
        parentId := req.parentId, title := strTrim req.title,
        pageOrder := match req.order with
          | some o => o
          | none => defaultPageOrder s req par.sectionId par.subsectionId } := by
  have hcpv : optTruthy req.parentId = true := by
    rw [hB]
    unfold optTruthy
    simpa using hBne
  have hgd : req.parentId.getD "" = B := by rw [hB]; rfl
  have hpar2 : findPage s.pages (req.parentId.getD "") = some par := by
    rw [hgd]; exact hpar
  simp only [createPage, hw, hti, hcpv, hpar2, hcsec, hcsub, hws, hsecT,
    hsecrow, hsubok, Bool.or_self, Bool.not_true, Bool.false_and,
    Bool.and_false, Bool.false_eq_true, if_false, Bool.not_false, if_true]

/-- C8 (amended): a page created under a parent page, and a page
reparented to a new parent page, inherit their stored
`sectionId`/`subsectionId` pair from the (new) parent row whenever the
caller does not explicitly supply one — the handlers never keep stale
caller values for the written row.  However the move updates only the
moved row itself (its descendants keep their old containment, see the
counterexample) and explicit caller overrides are accepted, so the blanket
"never diverges from the nearest section/subsection-bearing ancestor"
invariant does not hold after a committed move. -/
theorem containment_inherited_on_create_and_move
    (s : Store) (req : UpdateReq) (cur par pg : Page) (B : String)
    (hpv : req.parentId = some (some B)) (hBne : B ≠ "")
    (hBneq : some B ≠ cur.parentId)
    (hsec : req.sectionId = none) (hsub : req.subsectionId = none)
    (hcur : findPage s.pages req.id = some cur)
    (hpar : findPage s.pages B = some par)
    (hok : (updatePage s req).2 = Except.ok pg)
    (s2 : Store) (nid : String) (creq : CreateReq) (B2 : String)
    (par2 npg : Page)
    (hB2 : creq.parentId = some B2) (hB2ne : B2 ≠ "")
    (hw2 : (creq.workspaceId == "") = false)
    (hti2 : (strTrim creq.title == "") = false)
    (hcsec2 : optTruthy creq.sectionId = false)
    (hcsub2 : optTruthy creq.subsectionId = false)
    (hpar2 : findPage s2.pages B2 = some par2)
    (hsecT2 : optTruthy par2.sectionId = true)
    (hws2 : s2.workspaces.contains creq.workspaceId = true)
    (hsecrow2 : s2.sections.any (fun sec => sec.1 == par2.sectionId.getD ""
      && sec.2 == creq.workspaceId) = true)
    (hsubok2 : (optTruthy par2.subsectionId && !(s2.subsections.any
      (fun r => r.1 == par2.subsectionId.getD ""
        && r.2 == par2.sectionId.getD ""))) = false)
    (hcok : (createPage s2 nid creq).2 = Except.ok npg) :
    (pg.sectionId = par.sectionId ∧ pg.subsectionId = par.subsectionId) ∧
      (npg.sectionId = par2.sectionId ∧
        npg.subsectionId =
          (if optTruthy par2.subsectionId then par2.subsectionId else none)) := by
  constructor
  · by_cases hempty : (req.id == "") = true
    · rw [updatePage, updatePageCore_emptyId s req _ hempty] at hok
      simp at hok
    · have hemp : (req.id == "") = false := Bool.eq_false_iff.mpr hempty
      match hmv : moveValidationError cur req
          (runDescendantQuery s.pages req.id) with
      | some msg =>
        rw [updatePage, updatePageCore_moveErr s req _ cur _ hemp hcur hmv] at hok
        simp at hok
      | none =>
        have hok2 : (updatePageCore s req
            (runDescendantQuery s.pages req.id)).2 = Except.ok pg := hok
        have hshape := updatePageCore_ok_shape s req
          (runDescendantQuery s.pages req.id) cur hemp hcur hmv pg hok2
        have hic := inheritContainment_move s.pages cur req B par hpv hBneq
          hBne hsec hsub hpar
        rw [hshape]
        constructor
        · show (inheritContainment s.pages cur req).1 = par.sectionId
          rw [hic]
        · show (inheritContainment s.pages cur req).2 = par.subsectionId
          rw [hic]
  · have hfwd := createPage_inherits s2 nid creq B2 par2 hB2 hB2ne hw2 hti2
      hcsec2 hcsub2 hpar2 hsecT2 hws2 hsecrow2 hsubok2
    rw [hfwd] at hcok
    have hnpg := Except.ok.inj hcok
    rw [← hnpg]
    exact ⟨rfl, rfl⟩

theorem containment_inherited_on_create_and_move_witness :
    (((pageRow "Q" (some "R") (some "s2") none 0).sectionId
        = (pageRow "R" none (some "s2") none 0).sectionId ∧
      (pageRow "Q" (some "R") (some "s2") none 0).subsectionId
        = (pageRow "R" none (some "s2") none 0).subsectionId) ∧
     ((pageRow "newid" (some "Q") (some "s1") none 0).sectionId
        = (pageRow "Q" none (some "s1") none 0).sectionId ∧
      (pageRow "newid" (some "Q") (some "s1") none 0).subsectionId
        = (if optTruthy (pageRow "Q" none (some "s1") none 0).subsectionId
           then (pageRow "Q" none (some "s1") none 0).subsectionId
           else none))) :=
  containment_inherited_on_create_and_move sMove
    { id := "Q", parentId := some (some "R") }
    (pageRow "Q" none (some "s1") none 0)
    (pageRow "R" none (some "s2") none 0)
    (pageRow "Q" (some "R") (some "s2") none 0) "R"
    rfl (by decide) (by decide) rfl rfl (by decide) (by decide) (by decide)
    sMove "newid" { workspaceId := "w", title := "newid", parentId := some "Q" }
    "Q" (pageRow "Q" none (some "s1") none 0)
    (pageRow "newid" (some "Q") (some "s1") none 0)
    rfl (by decide) (by decide) (by decide) (by decide) (by decide)
    (by decide) (by decide) (by decide) (by decide) (by decide) (by decide)

end MotionPro
